import Mathlib

/-!
Verification of the text-extraction core of a DCS World mission (.miz) editor.

The development shallowly embeds the JavaScript sources:
  * `src/lua-parser.js`  — the table-language decoder (`LuaParser`),
  * the miz-parser module — extraction, normalisation, system-message
    filtering, report parsing and the round-trip codec (`MizParser`).

Strings are modelled as `List Char`.  JavaScript objects are modelled as
association lists (`JObj`) together with the canonical ECMAScript own-key
ordering (integer-like keys ascending first, then string keys in insertion
order).  Regular expressions occurring in the sources are embedded either as
terms of a small derivative-based regex engine (`RE`) or as deterministic
scanners, as noted at each definition.  All definitions are computable and
fuel-based recursion is structural, so concrete runs evaluate by `decide`.
-/

/-- Characters of a Lean string literal, used to write test inputs. -/
def cs (s : String) : List Char := s.data

/-- Single-quote character (apostrophe), used throughout the embedding. -/
def squote : Char := Char.ofNat 39

/-- Backslash character. -/
def bslash : Char := '\\'

/-- ECMAScript whitespace class: the set matched by `\s` in a JS regular
expression, which is also the set stripped by `String.prototype.trim`. -/
def isWsChar (c : Char) : Bool :=
  c = ' ' || c = '\t' || c = '\n' || c = '\r' || c.toNat = 11 || c.toNat = 12 ||
  c.toNat = 0xa0 || c.toNat = 0xfeff || c.toNat = 0x1680 ||
  (0x2000 ≤ c.toNat && c.toNat ≤ 0x200a) || c.toNat = 0x2028 || c.toNat = 0x2029 ||
  c.toNat = 0x202f || c.toNat = 0x205f || c.toNat = 0x3000

/-- JavaScript `String.prototype.trim`: strip leading and trailing `\s`. -/
def jsTrim (l : List Char) : List Char :=
  ((l.dropWhile isWsChar).reverse.dropWhile isWsChar).reverse

/-- Removal of one leading quote character (either kind). -/
def stripHeadQuote : List Char → List Char
  | [] => []
  | c :: rest => if c = '"' || c = squote then rest else c :: rest

/-- Removal of one trailing quote character (either kind). -/
def stripLastQuote (l : List Char) : List Char :=
  match l.getLast? with
  | some c => if c = '"' || c = squote then l.dropLast else l
  | none => l

/-- JavaScript `text.replace(/^["']|["']$/g, '')` from `cleanText`: the global
regex removes one leading quote character (of either kind) and then one
trailing quote character. -/
def stripOuterQuotes (l : List Char) : List Char := stripLastQuote (stripHeadQuote l)

/-- JavaScript `text.replace(/ab/g, r)` for a fixed two-character pattern
`a`,`b`: left-to-right non-overlapping replacement by `r`. -/
def replPair (a b : Char) (r : List Char) : List Char → List Char
  | [] => []
  | [c] => [c]
  | c :: d :: rest =>
    if c = a ∧ d = b then r ++ replPair a b r rest
    else c :: replPair a b r (d :: rest)

/-- JavaScript `text.replace(/\s+/g, ' ')` (state = currently inside a
whitespace run): every maximal whitespace run becomes a single space. -/
def collapseWsAux : Bool → List Char → List Char
  | _, [] => []
  | inRun, c :: rest =>
    if isWsChar c then
      if inRun then collapseWsAux true rest
      else ' ' :: collapseWsAux true rest
    else c :: collapseWsAux false rest

/-- Entry point of the `\s+` collapsing pass. -/
def collapseWs (l : List Char) : List Char := collapseWsAux false l

/-- JavaScript `text.replace(/\\(?!n)/g, '')` from `cleanText`: remove every
backslash that is not immediately followed by the letter `n`. -/
def stripStray : List Char → List Char
  | [] => []
  | [c] => if c = bslash then [] else [c]
  | c :: d :: rest =>
    if c = bslash ∧ d ≠ 'n' then stripStray (d :: rest)
    else c :: stripStray (d :: rest)

/-- Helper for the `/\n\s*\n/g` pass: inside the maximal whitespace run at the
head of `l`, find the last newline (the greedy `\s*` backtracks to it) and
return the suffix after it; `none` when the run contains no newline. -/
def wsNlMatch : List Char → Option (List Char)
  | [] => none
  | c :: rest =>
    if isWsChar c then
      match wsNlMatch rest with
      | some r => some r
      | none => if c = '\n' then some rest else none
    else none

/-- JavaScript `text.replace(/\n\s*\n/g, '\n')` from `cleanText`, fuel-indexed
so that it is structural (the fuel is the length of the list, which bounds the
number of scan steps). -/
def collapseBlankAux : Nat → List Char → List Char
  | 0, l => l
  | _ + 1, [] => []
  | n + 1, c :: rest =>
    if c = '\n' then
      match wsNlMatch rest with
      | some r => '\n' :: collapseBlankAux n r
      | none => c :: collapseBlankAux n rest
    else c :: collapseBlankAux n rest

/-- Entry point of the blank-line collapsing pass. -/
def collapseBlank (l : List Char) : List Char := collapseBlankAux l.length l

namespace MizParser

/-- MizParser.cleanText, line for line.  The input is the JS string argument
(`none` models a non-string argument, rejected by the `typeof` guard);
`none` as output models the function returning `null`.  Pass numbering
follows the comments in the source. -/
def cleanText (input : Option (List Char)) : Option (List Char) :=
  match input with
  | none => none
  | some s =>
    if s = [] then none else
    let t := jsTrim s
    if t = [] then none else
    let t := stripOuterQuotes t
    let t := replPair bslash 'n' ['\n'] t
    let t := replPair bslash 't' [' '] t
    let t := replPair bslash '"' ['"'] t
    let t := replPair bslash squote [squote] t
    let t := replPair bslash bslash [bslash] t
    let t := t.map (fun c => if c = '\t' then ' ' else c)
    let t := collapseWs t
    let t := stripStray t
    let t := jsTrim t
    let t := collapseBlank t
    if t = [] then none else some t

end MizParser

/-! ### Predicates on cleaned text -/

/-- Quote characters stripped by `cleanText`'s outer-quote pass. -/
def isQuoteChar (c : Char) : Bool := c = '"' || c = squote

/-- The list neither starts nor ends with a quote character. -/
def noOuterQuote (l : List Char) : Bool :=
  (match l.head? with | some c => !isQuoteChar c | none => true) &&
  (match l.getLast? with | some c => !isQuoteChar c | none => true)

/-- No two adjacent whitespace characters. -/
def noAdjWs : List Char → Bool
  | [] => true
  | [_] => true
  | c :: d :: rest => !(isWsChar c && isWsChar d) && noAdjWs (d :: rest)

/-- No backslash immediately followed by the letter `n`. -/
def nbn : List Char → Bool
  | [] => true
  | [_] => true
  | c :: d :: rest => !(c = bslash && d = 'n') && nbn (d :: rest)

/-- Every whitespace character in the list is a plain space. -/
def wsOnlySpace (l : List Char) : Bool := l.all (fun c => !isWsChar c || c = ' ')

/-! ### Elementary lemmas about the passes -/

theorem mem_of_mem_dropWhile {p : Char → Bool} {c : Char} :
    ∀ {l : List Char}, c ∈ l.dropWhile p → c ∈ l := by
  intro l
  induction l with
  | nil => intro h; exact h
  | cons d t ih =>
      intro h
      rw [List.dropWhile_cons] at h
      by_cases hd : p d
      · simp [hd] at h
        exact List.mem_cons_of_mem _ (ih h)
      · simpa [hd] using h

theorem mem_of_mem_jsTrim {c : Char} {l : List Char} (h : c ∈ jsTrim l) : c ∈ l := by
  unfold jsTrim at h
  rw [List.mem_reverse] at h
  have h2 := mem_of_mem_dropWhile h
  rw [List.mem_reverse] at h2
  exact mem_of_mem_dropWhile h2

theorem head?_dropWhile_not {p : Char → Bool} :
    ∀ (l : List Char) {c : Char}, (l.dropWhile p).head? = some c → p c = false := by
  intro l
  induction l with
  | nil => intro c h; simp [List.dropWhile] at h
  | cons d t ih =>
      intro c h
      rw [List.dropWhile_cons] at h
      by_cases hd : p d
      · simp [hd] at h; exact ih h
      · simp [hd] at h
        simp [← h]
        simpa using hd

theorem getLast?_dropWhile {p : Char → Bool} :
    ∀ (l : List Char) {c : Char}, (l.dropWhile p).getLast? = some c → l.getLast? = some c := by
  intro l
  induction l with
  | nil => intro c h; simp [List.dropWhile] at h
  | cons d t ih =>
      intro c h
      rw [List.dropWhile_cons] at h
      by_cases hd : p d
      · simp only [hd, if_true] at h
        have := ih h
        cases t with
        | nil => simp [List.dropWhile] at h
        | cons e u => simpa [List.getLast?_cons_cons] using this
      · simpa [hd] using h

/-- A list is `jsTrim`-fixed iff its two ends are not whitespace. -/
def endsNotWs (l : List Char) : Bool :=
  (match l.head? with | some c => !isWsChar c | none => true) &&
  (match l.getLast? with | some c => !isWsChar c | none => true)

theorem dropWhile_eq_self_of_head {p : Char → Bool} {l : List Char}
    (h : ∀ c, l.head? = some c → p c = false) : l.dropWhile p = l := by
  cases l with
  | nil => rfl
  | cons d t =>
      rw [List.dropWhile_cons]
      simp [h d rfl]

theorem jsTrim_eq_self_of_endsNotWs {l : List Char} (h : endsNotWs l = true) :
    jsTrim l = l := by
  unfold endsNotWs at h
  rw [Bool.and_eq_true] at h
  unfold jsTrim
  rw [dropWhile_eq_self_of_head, dropWhile_eq_self_of_head, List.reverse_reverse]
  · intro c hc
    have := h.1
    rw [hc] at this
    simpa using this
  · intro c hc
    rw [List.head?_reverse] at hc
    have hc2 := getLast?_dropWhile _ hc
    have := h.2
    rw [hc2] at this
    simpa using this

theorem endsNotWs_jsTrim (l : List Char) : endsNotWs (jsTrim l) = true := by
  unfold endsNotWs
  rw [Bool.and_eq_true]
  constructor
  · unfold jsTrim
    cases hh : (((l.dropWhile isWsChar).reverse.dropWhile isWsChar).reverse).head? with
    | none => simp
    | some c =>
        rw [List.head?_reverse] at hh
        have := getLast?_dropWhile _ hh
        rw [List.getLast?_reverse] at this
        have hf := head?_dropWhile_not (p := isWsChar) _ this
        simp [hf]
  · unfold jsTrim
    cases hh : (((l.dropWhile isWsChar).reverse.dropWhile isWsChar).reverse).getLast? with
    | none => simp
    | some c =>
        rw [List.getLast?_reverse] at hh
        have hf := head?_dropWhile_not (p := isWsChar) _ hh
        simp [hf]

theorem jsTrim_idem (l : List Char) : jsTrim (jsTrim l) = jsTrim l :=
  jsTrim_eq_self_of_endsNotWs (endsNotWs_jsTrim l)

theorem nbn_tail {c : Char} {l : List Char} (h : nbn (c :: l) = true) : nbn l = true := by
  cases l with
  | nil => rfl
  | cons d u =>
      rw [nbn, Bool.and_eq_true] at h
      exact h.2

theorem nbn_head {c h : Char} {l : List Char} (hn : nbn (c :: l) = true)
    (hh : l.head? = some h) : ¬(c = bslash ∧ h = 'n') := by
  cases l with
  | nil => simp at hh
  | cons d u =>
      simp at hh
      rw [nbn, Bool.and_eq_true] at hn
      subst hh
      have h1 := hn.1
      rintro ⟨e1, e2⟩
      rw [e1, e2] at h1
      simp at h1

theorem nbn_cons_of {x : Char} {l : List Char}
    (hh : ∀ h, l.head? = some h → ¬(x = bslash ∧ h = 'n'))
    (hl : nbn l = true) : nbn (x :: l) = true := by
  cases l with
  | nil => rfl
  | cons d u =>
      rw [nbn, Bool.and_eq_true]
      refine ⟨?_, hl⟩
      have hx := hh d rfl
      by_cases h1 : x = bslash
      · by_cases h2 : d = 'n'
        · exact absurd ⟨h1, h2⟩ hx
        · simp [h1, h2]
      · simp [h1]

theorem noAdjWs_tail {c : Char} {l : List Char} (h : noAdjWs (c :: l) = true) :
    noAdjWs l = true := by
  cases l with
  | nil => rfl
  | cons d u =>
      rw [noAdjWs, Bool.and_eq_true] at h
      exact h.2

theorem noAdjWs_head {c h : Char} {l : List Char} (hn : noAdjWs (c :: l) = true)
    (hh : l.head? = some h) : ¬(isWsChar c = true ∧ isWsChar h = true) := by
  cases l with
  | nil => simp at hh
  | cons d u =>
      simp at hh
      rw [noAdjWs, Bool.and_eq_true] at hn
      subst hh
      have h1 := hn.1
      rintro ⟨e1, e2⟩
      rw [e1, e2] at h1
      simp at h1

theorem replPair_head {a b x : Char} :
    ∀ (m : List Char) {h : Char}, (replPair a b [x] m).head? = some h →
      h = x ∨ m.head? = some h := by
  intro m
  match m with
  | [] => intro h hh; simp [replPair] at hh
  | [c] =>
      intro h hh
      simp [replPair] at hh
      right
      simp [hh]
  | c :: d :: rest =>
      intro h hh
      by_cases hm : c = a ∧ d = b
      · rw [replPair, if_pos hm] at hh
        simp at hh
        left; simp [hh]
      · rw [replPair, if_neg hm] at hh
        simp at hh
        right; simp [hh]

theorem replPair_eq_self (a b : Char) (r : List Char) :
    ∀ l : List Char, a ∉ l → replPair a b r l = l := by
  intro l
  induction l with
  | nil => intro _; rfl
  | cons c t ih =>
      intro hmem
      cases t with
      | nil => rfl
      | cons d u =>
          have hca : ¬(c = a ∧ d = b) := by
            rintro ⟨h1, _⟩
            exact hmem (by simp [h1])
          rw [replPair, if_neg hca]
          rw [ih (fun hm => hmem (List.mem_cons_of_mem _ hm))]

theorem nbn_replPair_first : ∀ l : List Char, nbn (replPair bslash 'n' ['\n'] l) = true := by
  have key : ∀ n (l : List Char), l.length ≤ n → nbn (replPair bslash 'n' ['\n'] l) = true := by
    intro n
    induction n with
    | zero =>
        intro l hl
        have : l = [] := List.length_eq_zero.mp (Nat.le_zero.mp hl)
        subst this; rfl
    | succ n ih =>
        intro l hl
        match l with
        | [] => rfl
        | [c] => rfl
        | c :: d :: rest =>
            by_cases hm : c = bslash ∧ d = 'n'
            · rw [replPair, if_pos hm]
              simp only [List.singleton_append]
              apply nbn_cons_of
              · intro h _ hx
                exact absurd hx.1 (by decide)
              · exact ih rest (by simp at hl; omega)
            · rw [replPair, if_neg hm]
              apply nbn_cons_of
              · intro h hh hx
                rcases replPair_head _ hh with h1 | h2
                · rw [h1] at hx; exact absurd hx.2 (by decide)
                · simp at h2
                  exact hm ⟨hx.1, by rw [h2]; exact hx.2⟩
              · exact ih (d :: rest) (by simp at hl ⊢; omega)
  intro l
  exact key l.length l le_rfl

theorem nbn_replPair_pres (b x : Char) (hxn : x ≠ 'n') (hbx : x = bslash → b = bslash) :
    ∀ l : List Char, nbn l = true → nbn (replPair bslash b [x] l) = true := by
  have key : ∀ n (l : List Char), l.length ≤ n → nbn l = true →
      nbn (replPair bslash b [x] l) = true := by
    intro n
    induction n with
    | zero =>
        intro l hl _
        have : l = [] := List.length_eq_zero.mp (Nat.le_zero.mp hl)
        subst this; rfl
    | succ n ih =>
        intro l hl hn
        match l with
        | [] => rfl
        | [c] => rfl
        | c :: d :: rest =>
            by_cases hm : c = bslash ∧ d = b
            · rw [replPair, if_pos hm]
              simp only [List.singleton_append]
              apply nbn_cons_of
              · intro h hh hx
                have hxb : x = bslash := hx.1
                have hdb : d = bslash := by rw [hm.2]; exact hbx hxb
                rcases replPair_head _ hh with h1 | h2
                · rw [h1] at hx; exact hxn hx.2
                · have := nbn_head (nbn_tail hn) h2
                  exact this ⟨hdb, hx.2⟩
              · exact ih rest (by simp at hl; omega) (nbn_tail (nbn_tail hn))
            · rw [replPair, if_neg hm]
              apply nbn_cons_of
              · intro h hh hx
                rcases replPair_head _ hh with h1 | h2
                · rw [h1] at hx; exact hxn hx.2
                · simp at h2
                  have := nbn_head hn (l := d :: rest) (h := d) rfl
                  exact this ⟨hx.1, by rw [h2]; exact hx.2⟩
              · exact ih (d :: rest) (by simp at hl ⊢; omega) (nbn_tail hn)
  intro l
  exact key l.length l le_rfl

theorem nbn_map_tab {l : List Char} (h : nbn l = true) :
    nbn (l.map (fun c => if c = '\t' then ' ' else c)) = true := by
  induction l with
  | nil => rfl
  | cons c t ih =>
      cases t with
      | nil => rfl
      | cons d u =>
          rw [nbn, Bool.and_eq_true] at h
          have ih2 := ih h.2
          rw [List.map_cons, List.map_cons, nbn, Bool.and_eq_true]
          constructor
          · by_cases hcb : c = bslash
            · by_cases hdn : d = 'n'
              · have h1 := h.1
                rw [hcb, hdn] at h1
                simp at h1
              · have hfd : (if d = '\t' then ' ' else d) ≠ 'n' := by
                  by_cases hdt : d = '\t'
                  · rw [if_pos hdt]; decide
                  · rw [if_neg hdt]; exact hdn
                simp [hfd]
            · have hfc : (if c = '\t' then ' ' else c) ≠ bslash := by
                by_cases hct : c = '\t'
                · rw [if_pos hct]; decide
                · rw [if_neg hct]; exact hcb
              simp [hfc]
          · exact ih2

theorem collapseWsAux_false_head {m : List Char} {h : Char}
    (hh : (collapseWsAux false m).head? = some h) : h = ' ' ∨ m.head? = some h := by
  cases m with
  | nil =>
      rw [show collapseWsAux false ([] : List Char) = [] from rfl] at hh
      simp at hh
  | cons d u =>
      rw [collapseWsAux] at hh
      by_cases hd : isWsChar d
      · simp only [hd, if_true, Bool.false_eq_true, if_false, List.head?_cons,
          Option.some.injEq] at hh
        left
        first
        | exact hh
        | exact hh.symm
      · simp only [hd, Bool.false_eq_true, if_false, List.head?_cons,
          Option.some.injEq] at hh
        right
        rw [List.head?_cons, hh]

theorem nbn_collapseWsAux : ∀ (l : List Char) (b : Bool), nbn l = true →
    nbn (collapseWsAux b l) = true := by
  intro l
  induction l with
  | nil => intro b _; cases b <;> rfl
  | cons c t ih =>
      intro b h
      rw [collapseWsAux]
      by_cases hc : isWsChar c
      · cases b with
        | true => simp only [hc, if_true]; exact ih true (nbn_tail h)
        | false =>
            simp only [hc, if_true, Bool.false_eq_true, if_false]
            apply nbn_cons_of
            · intro h' _ hx
              exact absurd hx.1 (by decide)
            · exact ih true (nbn_tail h)
      · simp only [hc, Bool.false_eq_true, if_false]
        apply nbn_cons_of
        · intro h' hh hx
          rcases collapseWsAux_false_head hh with h1 | h2
          · rw [h1] at hx; exact absurd hx.2 (by decide)
          · exact nbn_head h h2 hx
        · exact ih false (nbn_tail h)

theorem wsOnlySpace_collapseWsAux : ∀ (l : List Char) (b : Bool),
    wsOnlySpace (collapseWsAux b l) = true := by
  intro l
  induction l with
  | nil => intro b; cases b <;> rfl
  | cons c t ih =>
      intro b
      rw [collapseWsAux]
      by_cases hc : isWsChar c
      · cases b with
        | true => simp only [hc, if_true]; exact ih true
        | false =>
            simp only [hc, if_true, Bool.false_eq_true, if_false]
            rw [wsOnlySpace, List.all_cons]
            have h2 := ih true
            rw [wsOnlySpace] at h2
            simp [h2]
      · simp only [hc, Bool.false_eq_true, if_false]
        rw [wsOnlySpace, List.all_cons]
        have h2 := ih false
        rw [wsOnlySpace] at h2
        simp [hc, h2]

theorem collapseWsAux_eq_self : ∀ l : List Char, wsOnlySpace l = true → noAdjWs l = true →
    collapseWsAux false l = l ∧
      ((match l.head? with | some h => isWsChar h = false | none => True) →
        collapseWsAux true l = l) := by
  intro l
  induction l with
  | nil => exact fun _ _ => ⟨rfl, fun _ => rfl⟩
  | cons c t ih =>
      intro hws hadj
      rw [wsOnlySpace, List.all_cons, Bool.and_eq_true] at hws
      have hwst : wsOnlySpace t = true := hws.2
      have ih' := ih hwst (noAdjWs_tail hadj)
      by_cases hc : isWsChar c
      · have hcs : c = ' ' := by
          have := hws.1
          simp [hc] at this
          exact this
        constructor
        · rw [collapseWsAux]
          simp only [hc, if_true, Bool.false_eq_true, if_false]
          have htail : collapseWsAux true t = t := by
            apply ih'.2
            cases t with
            | nil => trivial
            | cons d u =>
                simp only [List.head?_cons]
                have := noAdjWs_head hadj (h := d) rfl
                by_cases hd : isWsChar d
                · exact absurd ⟨hc, hd⟩ this
                · simpa using hd
          rw [htail, hcs]
        · intro hh
          simp only [List.head?_cons] at hh
          rw [hh] at hc
          exact absurd hc (by simp)
      · have hfalse : collapseWsAux false (c :: t) = c :: t := by
          rw [collapseWsAux]
          simp only [hc, Bool.false_eq_true, if_false]
          rw [ih'.1]
        refine ⟨hfalse, fun _ => ?_⟩
        rw [collapseWsAux]
        simp only [hc, Bool.false_eq_true, if_false]
        rw [ih'.1]

theorem mem_stripStray {c : Char} : ∀ {l : List Char}, c ∈ stripStray l → c ∈ l := by
  intro l
  induction l with
  | nil => intro h; exact h
  | cons d t ih =>
      intro h
      cases t with
      | nil =>
          rw [stripStray] at h
          by_cases hd : d = bslash
          · simp [hd] at h
          · simp [hd] at h
            simp [h]
      | cons e u =>
          rw [stripStray] at h
          by_cases hm : d = bslash ∧ e ≠ 'n'
          · rw [if_pos hm] at h
            exact List.mem_cons_of_mem _ (ih h)
          · rw [if_neg hm] at h
            rcases List.mem_cons.mp h with h1 | h2
            · simp [h1]
            · exact List.mem_cons_of_mem _ (ih h2)

theorem stripStray_no_bslash : ∀ {l : List Char}, nbn l = true → bslash ∉ stripStray l := by
  intro l
  induction l with
  | nil =>
      intro _ h
      rw [show stripStray [] = [] from rfl] at h
      simp at h
  | cons d t ih =>
      intro hn h
      cases t with
      | nil =>
          rw [stripStray] at h
          by_cases hd : d = bslash
          · simp [hd] at h
          · simp [hd] at h
            exact hd h.symm
      | cons e u =>
          rw [stripStray] at h
          by_cases hm : d = bslash ∧ e ≠ 'n'
          · rw [if_pos hm] at h
            exact ih (nbn_tail hn) h
          · rw [if_neg hm] at h
            rcases List.mem_cons.mp h with h1 | h2
            · have hd : d = bslash := h1.symm
              have he : e = 'n' := by
                by_contra hne
                exact hm ⟨hd, hne⟩
              exact nbn_head hn (h := e) rfl ⟨hd, he⟩
            · exact ih (nbn_tail hn) h2

theorem stripStray_eq_self : ∀ {l : List Char}, bslash ∉ l → stripStray l = l := by
  intro l
  induction l with
  | nil => intro _; rfl
  | cons d t ih =>
      intro h
      have hd : d ≠ bslash := fun e => h (by simp [e])
      cases t with
      | nil =>
          rw [stripStray, if_neg hd]
      | cons e u =>
          rw [stripStray, if_neg (fun hx => hd hx.1)]
          rw [ih (fun hm => h (List.mem_cons_of_mem _ hm))]

theorem wsNlMatch_eq_none : ∀ {l : List Char}, '\n' ∉ l → wsNlMatch l = none := by
  intro l
  induction l with
  | nil => intro _; rfl
  | cons c t ih =>
      intro h
      rw [wsNlMatch]
      by_cases hc : isWsChar c
      · rw [ih (fun hm => h (List.mem_cons_of_mem _ hm))]
        simp only [hc, if_true]
        have : c ≠ '\n' := fun e => h (by simp [e])
        simp [this]
      · simp [hc]

theorem collapseBlankAux_eq_self : ∀ (n : Nat) (l : List Char), '\n' ∉ l →
    collapseBlankAux n l = l := by
  intro n
  induction n with
  | zero => intro l _; rfl
  | succ n ih =>
      intro l h
      cases l with
      | nil => rfl
      | cons c t =>
          rw [collapseBlankAux]
          have hc : c ≠ '\n' := fun e => h (by simp [e])
          simp only [hc, if_false]
          rw [ih t (fun hm => h (List.mem_cons_of_mem _ hm))]

theorem collapseBlank_eq_self {l : List Char} (h : '\n' ∉ l) : collapseBlank l = l :=
  collapseBlankAux_eq_self _ _ h

theorem stripHeadQuote_eq_self {l : List Char}
    (h : ∀ c, l.head? = some c → isQuoteChar c = false) : stripHeadQuote l = l := by
  cases l with
  | nil => rfl
  | cons c t =>
      have hc := h c rfl
      unfold isQuoteChar at hc
      rw [stripHeadQuote, if_neg]
      simp [hc]

theorem stripLastQuote_eq_self {l : List Char}
    (h : ∀ c, l.getLast? = some c → isQuoteChar c = false) : stripLastQuote l = l := by
  unfold stripLastQuote
  cases hl : l.getLast? with
  | none => rfl
  | some c =>
      have hc := h c hl
      unfold isQuoteChar at hc
      simp [hc]

theorem stripOuterQuotes_eq_self {l : List Char} (h : noOuterQuote l = true) :
    stripOuterQuotes l = l := by
  unfold noOuterQuote at h
  rw [Bool.and_eq_true] at h
  unfold stripOuterQuotes
  have hh : stripHeadQuote l = l := by
    apply stripHeadQuote_eq_self
    intro c hc
    have h1 := h.1
    rw [hc] at h1
    simpa using h1
  rw [hh]
  apply stripLastQuote_eq_self
  intro c hc
  have h2 := h.2
  rw [hc] at h2
  simpa using h2

theorem map_tab_eq_self {l : List Char} (h : '\t' ∉ l) :
    l.map (fun c => if c = '\t' then ' ' else c) = l := by
  induction l with
  | nil => rfl
  | cons c t ih =>
      rw [List.map_cons]
      have hc : c ≠ '\t' := fun e => h (by simp [e])
      rw [if_neg hc, ih (fun hm => h (List.mem_cons_of_mem _ hm))]

theorem wsOnlySpace_of_subset {m l : List Char} (hsub : ∀ c, c ∈ m → c ∈ l)
    (h : wsOnlySpace l = true) : wsOnlySpace m = true := by
  unfold wsOnlySpace at h ⊢
  rw [List.all_eq_true] at h ⊢
  exact fun c hc => h c (hsub c hc)

theorem not_mem_of_wsOnlySpace {l : List Char} {c : Char} (h : wsOnlySpace l = true)
    (hws : isWsChar c = true) (hne : c ≠ ' ') : c ∉ l := by
  intro hmem
  unfold wsOnlySpace at h
  rw [List.all_eq_true] at h
  have := h c hmem
  rw [hws] at this
  simp at this
  exact hne this

/-- Invariants of `cleanText`'s internal pipeline after the escape passes:
writing `w` for the value reaching the final blank-line pass, `w` is already
free of newlines (so that pass is the identity), trimmed, backslash-free, and
every whitespace character in it is a plain space. -/
theorem cleanPipe_inv (t0 : List Char) :
    collapseBlank (jsTrim (stripStray (collapseWs (List.map
        (fun c => if c = '\t' then ' ' else c)
        (replPair bslash bslash [bslash] (replPair bslash squote [squote]
          (replPair bslash '"' ['"'] (replPair bslash 't' [' ']
            (replPair bslash 'n' ['\n'] t0))))))))) =
      jsTrim (stripStray (collapseWs (List.map (fun c => if c = '\t' then ' ' else c)
        (replPair bslash bslash [bslash] (replPair bslash squote [squote]
          (replPair bslash '"' ['"'] (replPair bslash 't' [' ']
            (replPair bslash 'n' ['\n'] t0)))))))) ∧
    jsTrim (jsTrim (stripStray (collapseWs (List.map (fun c => if c = '\t' then ' ' else c)
        (replPair bslash bslash [bslash] (replPair bslash squote [squote]
          (replPair bslash '"' ['"'] (replPair bslash 't' [' ']
            (replPair bslash 'n' ['\n'] t0))))))))) =
      jsTrim (stripStray (collapseWs (List.map (fun c => if c = '\t' then ' ' else c)
        (replPair bslash bslash [bslash] (replPair bslash squote [squote]
          (replPair bslash '"' ['"'] (replPair bslash 't' [' ']
            (replPair bslash 'n' ['\n'] t0)))))))) ∧
    bslash ∉ jsTrim (stripStray (collapseWs (List.map (fun c => if c = '\t' then ' ' else c)
        (replPair bslash bslash [bslash] (replPair bslash squote [squote]
          (replPair bslash '"' ['"'] (replPair bslash 't' [' ']
            (replPair bslash 'n' ['\n'] t0)))))))) ∧
    wsOnlySpace (jsTrim (stripStray (collapseWs (List.map
        (fun c => if c = '\t' then ' ' else c)
        (replPair bslash bslash [bslash] (replPair bslash squote [squote]
          (replPair bslash '"' ['"'] (replPair bslash 't' [' ']
            (replPair bslash 'n' ['\n'] t0))))))))) = true := by
  have hnbn1 : nbn (replPair bslash 'n' ['\n'] t0) = true := nbn_replPair_first _
  have hnbn2 := nbn_replPair_pres 't' ' ' (by decide) (by decide) _ hnbn1
  have hnbn3 := nbn_replPair_pres '"' '"' (by decide) (by decide) _ hnbn2
  have hnbn4 := nbn_replPair_pres squote squote (by decide) (by decide) _ hnbn3
  have hnbn5 := nbn_replPair_pres bslash bslash (by decide) (fun _ => rfl) _ hnbn4
  have hnbn6 := nbn_map_tab hnbn5
  have hnbn7 := nbn_collapseWsAux _ false hnbn6
  have hws7 := wsOnlySpace_collapseWsAux (List.map (fun c => if c = '\t' then ' ' else c)
    (replPair bslash bslash [bslash] (replPair bslash squote [squote]
      (replPair bslash '"' ['"'] (replPair bslash 't' [' ']
        (replPair bslash 'n' ['\n'] t0)))))) false
  have hnb : bslash ∉ stripStray (collapseWs (List.map (fun c => if c = '\t' then ' ' else c)
      (replPair bslash bslash [bslash] (replPair bslash squote [squote]
        (replPair bslash '"' ['"'] (replPair bslash 't' [' ']
          (replPair bslash 'n' ['\n'] t0))))))) := stripStray_no_bslash hnbn7
  have hwsS := wsOnlySpace_of_subset (fun c hc => mem_stripStray hc) hws7
  have hwsT := wsOnlySpace_of_subset (fun c hc => mem_of_mem_jsTrim hc) hwsS
  have hnlT : '\n' ∉ jsTrim (stripStray (collapseWs (List.map
      (fun c => if c = '\t' then ' ' else c)
      (replPair bslash bslash [bslash] (replPair bslash squote [squote]
        (replPair bslash '"' ['"'] (replPair bslash 't' [' ']
          (replPair bslash 'n' ['\n'] t0)))))))) :=
    not_mem_of_wsOnlySpace hwsT (by decide) (by decide)
  refine ⟨collapseBlank_eq_self hnlT, jsTrim_idem _, ?_, hwsT⟩
  exact fun hmem => hnb (mem_of_mem_jsTrim hmem)

/-- Every `some` result of `cleanText` is nonempty, trim-fixed, backslash-free
and has only plain spaces as whitespace. -/
theorem cleanText_inv {s y : List Char} (h : MizParser.cleanText (some s) = some y) :
    y ≠ [] ∧ jsTrim y = y ∧ bslash ∉ y ∧ wsOnlySpace y = true := by
  simp only [MizParser.cleanText] at h
  by_cases h1 : s = []
  · rw [if_pos h1] at h; exact absurd h (by simp)
  · rw [if_neg h1] at h
    by_cases h2 : jsTrim s = []
    · rw [if_pos h2] at h; exact absurd h (by simp)
    · rw [if_neg h2] at h
      have hpipe := cleanPipe_inv (stripOuterQuotes (jsTrim s))
      rw [hpipe.1] at h
      split at h
      · exact absurd h (by simp)
      · rename_i hne
        have hy : jsTrim (stripStray (collapseWs (List.map
            (fun c => if c = '\t' then ' ' else c)
            (replPair bslash bslash [bslash] (replPair bslash squote [squote]
              (replPair bslash '"' ['"'] (replPair bslash 't' [' ']
                (replPair bslash 'n' ['\n'] (stripOuterQuotes (jsTrim s)))))))))) = y := by
          injection h
        rw [← hy]
        exact ⟨hne, hpipe.2.1, hpipe.2.2.1, hpipe.2.2.2⟩

/-- If every pass of `cleanText` fixes `t` (and `t` is nonempty), then
`cleanText` returns `t` unchanged. -/
theorem cleanText_fixed {t : List Char} (hne : t ≠ [])
    (e1 : jsTrim t = t) (e2 : stripOuterQuotes t = t)
    (e3 : replPair bslash 'n' ['\n'] t = t) (e4 : replPair bslash 't' [' '] t = t)
    (e5 : replPair bslash '"' ['"'] t = t) (e6 : replPair bslash squote [squote] t = t)
    (e7 : replPair bslash bslash [bslash] t = t)
    (e8 : List.map (fun c => if c = '\t' then ' ' else c) t = t)
    (e9 : collapseWs t = t) (e10 : stripStray t = t) (e11 : collapseBlank t = t) :
    MizParser.cleanText (some t) = some t := by
  simp only [MizParser.cleanText]
  rw [if_neg hne]
  simp only [e1, e2, e3, e4, e5, e6, e7, e8, e9, e10, e11]
  rw [if_neg hne, if_neg hne]

theorem dropWhile_eq_nil_of_all {p : Char → Bool} :
    ∀ {l : List Char}, (∀ c ∈ l, p c = true) → l.dropWhile p = [] := by
  intro l
  induction l with
  | nil => intro _; rfl
  | cons c t ih =>
      intro h
      rw [List.dropWhile_cons]
      simp only [h c (by simp), if_true]
      exact ih (fun d hd => h d (List.mem_cons_of_mem _ hd))

theorem cleanText_ws_none {x : List Char} (h : ∀ c ∈ x, isWsChar c = true) :
    MizParser.cleanText (some x) = none := by
  simp only [MizParser.cleanText]
  by_cases h1 : x = []
  · rw [if_pos h1]
  · rw [if_neg h1]
    have h2 : jsTrim x = [] := by
      unfold jsTrim
      rw [dropWhile_eq_nil_of_all h]
      rfl
    rw [if_pos h2]

/-- Claim C5 (counterexample): `cleanText` is not idempotent.  On the input
`""a""` the first application strips one layer of quotes, producing `"a"`,
and a second application strips another layer, producing `a`. -/
theorem claim_C5_counterexample :
    MizParser.cleanText (MizParser.cleanText (some (cs "\"\"a\"\""))) ≠
      MizParser.cleanText (some (cs "\"\"a\"\"")) := by decide

/-- Claim C5 (amended): `cleanText("")` and `cleanText` of any whitespace-only
string are `null`; and `cleanText` is idempotent on every input whose cleaned
form neither starts nor ends with a quote character and contains no two
adjacent spaces (the outer-quote stripping pass and the stray-backslash
removal after whitespace collapsing are the only sources of non-idempotence). -/
theorem claim_C5_amended :
    MizParser.cleanText (some (cs "")) = none ∧
    (∀ x : List Char, (∀ c ∈ x, isWsChar c = true) → MizParser.cleanText (some x) = none) ∧
    (∀ x y : List Char, MizParser.cleanText (some x) = some y →
      noOuterQuote y = true → noAdjWs y = true →
      MizParser.cleanText (some y) = some y) := by
  refine ⟨by decide, fun x h => cleanText_ws_none h, ?_⟩
  intro x y h hq hadj
  obtain ⟨hne, htrim, hnb, hws⟩ := cleanText_inv h
  have htab : '\t' ∉ y := not_mem_of_wsOnlySpace hws (by decide) (by decide)
  have hnl : '\n' ∉ y := not_mem_of_wsOnlySpace hws (by decide) (by decide)
  exact cleanText_fixed hne htrim (stripOuterQuotes_eq_self hq)
    (replPair_eq_self _ _ _ _ hnb) (replPair_eq_self _ _ _ _ hnb)
    (replPair_eq_self _ _ _ _ hnb) (replPair_eq_self _ _ _ _ hnb)
    (replPair_eq_self _ _ _ _ hnb) (map_tab_eq_self htab)
    ((collapseWsAux_eq_self y hws hadj).1) (stripStray_eq_self hnb)
    (collapseBlank_eq_self hnl)

/-- Claim C5 (witness): the amended idempotence applied to a concrete input. -/
theorem claim_C5_witness :
    MizParser.cleanText (some (cs "hello world")) = some (cs "hello world") :=
  claim_C5_amended.2.2 (cs "  hello   world  ") (cs "hello world")
    (by decide) (by decide) (by decide)

/-- Claim C10 (amended): `cleanText` returns `null` or a non-empty string that
equals its own trim and contains no tab and no newline.  (Multi-line input is
flattened to one line; however the whitespace-collapsing pass runs before the
stray-backslash removal, so the output may contain two adjacent spaces — see
the counterexample.) -/
theorem claim_C10_amended : ∀ x y : List Char, MizParser.cleanText (some x) = some y →
    y ≠ [] ∧ jsTrim y = y ∧ '\t' ∉ y ∧ '\n' ∉ y := by
  intro x y h
  obtain ⟨hne, htrim, _, hws⟩ := cleanText_inv h
  exact ⟨hne, htrim, not_mem_of_wsOnlySpace hws (by decide) (by decide),
    not_mem_of_wsOnlySpace hws (by decide) (by decide)⟩

/-- Claim C10 (counterexample): for the multi-line input `a \ b<newline>c`
the cleaned output is `a  b c`, which contains a run of two spaces — internal
whitespace runs are not always collapsed to single spaces, because the stray
backslash is deleted only after whitespace collapsing. -/
theorem claim_C10_counterexample :
    MizParser.cleanText (some (cs "a \\ b\nc")) = some (cs "a  b c") ∧
    noAdjWs (cs "a  b c") = false := by decide

/-- Claim C10 (witness): the amended property applied to a concrete input. -/
theorem claim_C10_witness :
    (cs "a b c") ≠ [] ∧ jsTrim (cs "a b c") = cs "a b c" ∧
      '\t' ∉ (cs "a b c") ∧ '\n' ∉ (cs "a b c") :=
  claim_C10_amended (cs " a\tb\nc ") (cs "a b c") (by decide)

/-! ### A small regex engine (Brzozowski derivatives)

Each JavaScript regular expression appearing in `isSystemMessage`'s pattern
tables is transcribed as an `RE` term; `/i` case-insensitivity is modelled by
`ciChar` (ASCII case folding, which is what a non-unicode-mode JS regex does
on these ASCII patterns), `\s` by `isWsChar`, `\d` by `digitRE`, and
`RegExp.test`'s substring-search semantics by wrapping an unanchored side
with `anyStar`. -/

inductive RE where
  | emp : RE
  | eps : RE
  | cls (p : Char → Bool) : RE
  | seq (a b : RE) : RE
  | alt (a b : RE) : RE
  | star (a : RE) : RE

def RE.nullable : RE → Bool
  | .emp => false
  | .eps => true
  | .cls _ => false
  | .seq a b => a.nullable && b.nullable
  | .alt a b => a.nullable || b.nullable
  | .star _ => true

/-- Smart sequencing (keeps derivatives small; language-preserving). -/
def RE.mkSeq : RE → RE → RE
  | .emp, _ => .emp
  | .eps, b => b
  | a, b => .seq a b

/-- Smart alternation (keeps derivatives small; language-preserving). -/
def RE.mkAlt : RE → RE → RE
  | .emp, b => b
  | a, .emp => a
  | a, b => .alt a b

def RE.deriv : RE → Char → RE
  | .emp, _ => .emp
  | .eps, _ => .emp
  | .cls p, c => if p c then .eps else .emp
  | .seq a b, c =>
      if a.nullable then .mkAlt (.mkSeq (a.deriv c) b) (b.deriv c)
      else .mkSeq (a.deriv c) b
  | .alt a b, c => .mkAlt (a.deriv c) (b.deriv c)
  | .star a, c => .mkSeq (a.deriv c) (.star a)

/-- Full-match test of the regex against the whole list. -/
def RE.run (r : RE) (l : List Char) : Bool := (l.foldl RE.deriv r).nullable

def anyChar : RE := RE.cls (fun _ => true)

def anyStar : RE := RE.star anyChar

def chr (c : Char) : RE := RE.cls (fun x => x = c)

/-- ASCII lower-casing, the case folding relevant to these `/i` patterns. -/
def lowerAscii (c : Char) : Char :=
  if 'A' ≤ c ∧ c ≤ 'Z' then Char.ofNat (c.toNat + 32) else c

/-- Case-insensitive single character. -/
def ciChar (c : Char) : RE := RE.cls (fun x => lowerAscii x = lowerAscii c)

/-- Case-insensitive literal string. -/
def ciStr (s : String) : RE := s.data.foldr (fun c r => RE.seq (ciChar c) r) RE.eps

def wsRE : RE := RE.cls isWsChar

def digitRE : RE := RE.cls (fun c => '0' ≤ c && c ≤ '9')

def rePlus (r : RE) : RE := RE.seq r (RE.star r)

def reOpt (r : RE) : RE := RE.alt r RE.eps

def altL : List RE → RE
  | [] => RE.emp
  | [r] => r
  | r :: rest => RE.alt r (altL rest)

/-- `pattern.test(s)` for a pattern anchored only at the start (`/^.../`). -/
def reFromStart (r : RE) : RE := RE.seq r anyStar

/-- `pattern.test(s)` for a pattern anchored only at the end (`/...$/`). -/
def reToEnd (r : RE) : RE := RE.seq anyStar r

/-- `pattern.test(s)` for an unanchored pattern. -/
def reSearch (r : RE) : RE := RE.seq anyStar (RE.seq r anyStar)

/-- Class `[A-Z\s]` under `/i`: ASCII letters of either case, or whitespace. -/
def azWsRE : RE :=
  RE.cls (fun c => ('A' ≤ c && c ≤ 'Z') || ('a' ≤ c && c ≤ 'z') || isWsChar c)

/-- Class `[A-Z\s\d\-\+:]` (case-sensitive). -/
def capsLabelCls : RE :=
  RE.cls (fun c => ('A' ≤ c && c ≤ 'Z') || isWsChar c || ('0' ≤ c && c ≤ '9') ||
    c = '-' || c = '+' || c = ':')

/-- Class `[A-Z\s\d]` (case-sensitive). -/
def capsShortCls : RE :=
  RE.cls (fun c => ('A' ≤ c && c ≤ 'Z') || isWsChar c || ('0' ≤ c && c ≤ '9'))

namespace MizParser

/-- MizParser.SYSTEM_MESSAGE_PATTERNS, one `RE` per source regex, in order. -/
def SYSTEM_MESSAGE_PATTERNS : List RE := [
  -- /^JAMMER\s/i
  reFromStart (RE.seq (ciStr "JAMMER") wsRE),
  -- /JAMMER\s*(COOLING|HEAT|OUTPUT|STOP|COOLED|OVERHEATED)/i
  reSearch (RE.seq (ciStr "JAMMER") (RE.seq (RE.star wsRE)
    (altL [ciStr "COOLING", ciStr "HEAT", ciStr "OUTPUT", ciStr "STOP",
      ciStr "COOLED", ciStr "OVERHEATED"]))),
  -- /^NO JAMMER OUTPUT/i
  reFromStart (ciStr "NO JAMMER OUTPUT"),
  -- /^\d+\s*(MINUTE|MIN|SEC|SECOND)/i
  reFromStart (RE.seq (rePlus digitRE) (RE.seq (RE.star wsRE)
    (altL [ciStr "MINUTE", ciStr "MIN", ciStr "SEC", ciStr "SECOND"]))),
  -- /^[A-Z\s]+\s+\d+\s*(MIN|SEC|MINUTE)/i
  reFromStart (RE.seq (rePlus azWsRE) (RE.seq (rePlus wsRE) (RE.seq (rePlus digitRE)
    (RE.seq (RE.star wsRE) (altL [ciStr "MIN", ciStr "SEC", ciStr "MINUTE"]))))),
  -- /^(ON|OFF|READY|STANDBY)$/i
  altL [ciStr "ON", ciStr "OFF", ciStr "READY", ciStr "STANDBY"],
  -- /^(LOCK|LOCKED|UNLOCK|UNLOCKED)$/i
  altL [ciStr "LOCK", ciStr "LOCKED", ciStr "UNLOCK", ciStr "UNLOCKED"],
  -- /^(ENGAGED|DISENGAGED|ACTIVE|INACTIVE)$/i
  altL [ciStr "ENGAGED", ciStr "DISENGAGED", ciStr "ACTIVE", ciStr "INACTIVE"],
  -- /^(CHAFF|FLARE)\s+(LOW|OUT|EMPTY)/i
  reFromStart (RE.seq (altL [ciStr "CHAFF", ciStr "FLARE"]) (RE.seq (rePlus wsRE)
    (altL [ciStr "LOW", ciStr "OUT", ciStr "EMPTY"]))),
  -- /^(FUEL|BINGO)\s+(LOW|CRITICAL)/i
  reFromStart (RE.seq (altL [ciStr "FUEL", ciStr "BINGO"]) (RE.seq (rePlus wsRE)
    (altL [ciStr "LOW", ciStr "CRITICAL"]))),
  -- /^ECM\s+(POWER|MASTER|XMIT)/i
  reFromStart (RE.seq (ciStr "ECM") (RE.seq (rePlus wsRE)
    (altL [ciStr "POWER", ciStr "MASTER", ciStr "XMIT"]))),
  -- /^CMS\s+(AUTO|RIGHT|LEFT|AFT|FWD)/i
  reFromStart (RE.seq (ciStr "CMS") (RE.seq (rePlus wsRE)
    (altL [ciStr "AUTO", ciStr "RIGHT", ciStr "LEFT", ciStr "AFT", ciStr "FWD"]))),
  -- /^WAIT\s+CMS/i
  reFromStart (RE.seq (ciStr "WAIT") (RE.seq (rePlus wsRE) (ciStr "CMS"))),
  -- /^XMIT\s+POS/i
  reFromStart (RE.seq (ciStr "XMIT") (RE.seq (rePlus wsRE) (ciStr "POS"))),
  -- /^BUTTON\s+\d+\s+(ON|OFF)$/i
  RE.seq (ciStr "BUTTON") (RE.seq (rePlus wsRE) (RE.seq (rePlus digitRE)
    (RE.seq (rePlus wsRE) (altL [ciStr "ON", ciStr "OFF"])))),
  -- /^INSERT\s+(ON|OFF)\s+COURSE\s+AUDIO$/i
  RE.seq (ciStr "INSERT") (RE.seq (rePlus wsRE) (RE.seq (altL [ciStr "ON", ciStr "OFF"])
    (RE.seq (rePlus wsRE) (RE.seq (ciStr "COURSE") (RE.seq (rePlus wsRE)
      (ciStr "AUDIO")))))),
  -- /^INSERT\s+ATC\s+HANDOFF/i
  reFromStart (RE.seq (ciStr "INSERT") (RE.seq (rePlus wsRE) (RE.seq (ciStr "ATC")
    (RE.seq (rePlus wsRE) (ciStr "HANDOFF"))))),
  -- /^INSERT\s+(ATTACK|TASKING)\s+COMPLETE/i
  reFromStart (RE.seq (ciStr "INSERT") (RE.seq (rePlus wsRE)
    (RE.seq (altL [ciStr "ATTACK", ciStr "TASKING"]) (RE.seq (rePlus wsRE)
      (ciStr "COMPLETE"))))),
  -- /^SET\s+STARTING\s+MESSAGE$/i
  RE.seq (ciStr "SET") (RE.seq (rePlus wsRE) (RE.seq (ciStr "STARTING")
    (RE.seq (rePlus wsRE) (ciStr "MESSAGE")))),
  -- /^ADD\s+TOWER/i
  reFromStart (RE.seq (ciStr "ADD") (RE.seq (rePlus wsRE) (ciStr "TOWER"))),
  -- /^HOLD\s+UNTIL\s+CLEAR$/i
  RE.seq (ciStr "HOLD") (RE.seq (rePlus wsRE) (RE.seq (ciStr "UNTIL")
    (RE.seq (rePlus wsRE) (ciStr "CLEAR")))),
  -- /^\d+$/
  rePlus digitRE,
  -- /^\d+\+$/
  RE.seq (rePlus digitRE) (chr '+'),
  -- /^(WEPS|TRIGGER|POWER\s+ON|LASER\s+OFF|MASTER\s+ARM)$/i
  altL [ciStr "WEPS", ciStr "TRIGGER",
    RE.seq (ciStr "POWER") (RE.seq (rePlus wsRE) (ciStr "ON")),
    RE.seq (ciStr "LASER") (RE.seq (rePlus wsRE) (ciStr "OFF")),
    RE.seq (ciStr "MASTER") (RE.seq (rePlus wsRE) (ciStr "ARM"))],
  -- /^(RESP|ASK)\s+\d+$/i
  RE.seq (altL [ciStr "RESP", ciStr "ASK"]) (RE.seq (rePlus wsRE) (rePlus digitRE)),
  -- /^COMM\s+\d+$/i
  RE.seq (ciStr "COMM") (RE.seq (rePlus wsRE) (rePlus digitRE)),
  -- /^HEAT\s+PENALTY/i
  reFromStart (RE.seq (ciStr "HEAT") (RE.seq (rePlus wsRE) (ciStr "PENALTY"))),
  -- /^JUAMMER\s+OVERHEATED$/i
  RE.seq (ciStr "JUAMMER") (RE.seq (rePlus wsRE) (ciStr "OVERHEATED")),
  -- /^TARGET\s+DETAILS:?$/i
  RE.seq (ciStr "TARGET") (RE.seq (rePlus wsRE) (RE.seq (ciStr "DETAILS")
    (reOpt (chr ':'))))]

/-- MizParser.RADIO_MENU_PATTERNS, one `RE` per source regex, in order. -/
def RADIO_MENU_PATTERNS : List RE := [
  -- /^Contact\s+(RAPCON|Tower|Departure|Arrival)/i
  reFromStart (RE.seq (ciStr "Contact") (RE.seq (rePlus wsRE)
    (altL [ciStr "RAPCON", ciStr "Tower", ciStr "Departure", ciStr "Arrival"]))),
  -- /^Request\s+(Takeoff|Taxi|Landing|Engine\s+Start)/i
  reFromStart (RE.seq (ciStr "Request") (RE.seq (rePlus wsRE)
    (altL [ciStr "Takeoff", ciStr "Taxi", ciStr "Landing",
      RE.seq (ciStr "Engine") (RE.seq (rePlus wsRE) (ciStr "Start"))]))),
  -- /^(Abort|Declare)\s+(Mission|emergency)/i
  reFromStart (RE.seq (altL [ciStr "Abort", ciStr "Declare"]) (RE.seq (rePlus wsRE)
    (altL [ciStr "Mission", ciStr "emergency"]))),
  -- /^View\s+Briefing\s+Image$/i
  RE.seq (ciStr "View") (RE.seq (rePlus wsRE) (RE.seq (ciStr "Briefing")
    (RE.seq (rePlus wsRE) (ciStr "Image")))),
  -- /\d+\s+POINTS?$/i
  reToEnd (RE.seq (rePlus digitRE) (RE.seq (rePlus wsRE)
    (RE.seq (ciStr "POINT") (reOpt (ciChar 'S')))))]

/-- JavaScript `hay.includes(needle)`: substring containment. -/
def jsIncludes (needle : List Char) : List Char → Bool
  | [] => needle.isEmpty
  | c :: rest => needle.isPrefixOf (c :: rest) || jsIncludes needle rest

/-- Number of maximal whitespace runs in the list. -/
def countWsRuns : Bool → List Char → Nat
  | _, [] => 0
  | inRun, c :: rest =>
    if isWsChar c then
      if inRun then countWsRuns true rest else 1 + countWsRuns true rest
    else countWsRuns false rest

/-- `s.split(/\s+/).length` in JavaScript: one more than the number of
separator matches (maximal whitespace runs); the empty string splits to
`[""]`. -/
def jsSplitWsCount (l : List Char) : Nat :=
  if l = [] then 1 else countWsRuns false l + 1

/-- MizParser.isSystemMessage.  `text` is `none` for a non-string argument
(rejected by the leading guard together with the empty string); `key` is the
dictionary key, whose truthiness guards each branch. -/
def isSystemMessage (text : Option (List Char)) (key : Option (List Char)) : Bool :=
  match text with
  | none => false
  | some t =>
    if t = [] then false else
    let trimmed := jsTrim t
    let inActionText := match key with
      | some k => k ≠ [] && jsIncludes (cs "ActionText") k
      | none => false
    let inActionRadioText := match key with
      | some k => k ≠ [] && jsIncludes (cs "ActionRadioText") k
      | none => false
    (inActionText &&
      (SYSTEM_MESSAGE_PATTERNS.any (fun r => RE.run r trimmed) ||
        (trimmed.length ≤ 20 && (rePlus capsLabelCls).run trimmed &&
          jsSplitWsCount trimmed ≤ 3))) ||
    (inActionRadioText &&
      (SYSTEM_MESSAGE_PATTERNS.any (fun r => RE.run r trimmed) ||
        RADIO_MENU_PATTERNS.any (fun r => RE.run r trimmed) ||
        (jsSplitWsCount trimmed ≤ 2 && (rePlus capsShortCls).run trimmed)))

end MizParser

/-- Claim C7: the two documented evaluations of `isSystemMessage`, and the
guard property — when the context key names neither an `ActionText` nor an
`ActionRadioText` field, `isSystemMessage` is `false` for every text. -/
theorem claim_C7 :
    MizParser.isSystemMessage (some (cs "JAMMER COOLING 9 MINUTE"))
      (some (cs "DictKey_ActionRadioText_1")) = true ∧
    MizParser.isSystemMessage
      (some (cs "This is a proper radio message that should be translated"))
      (some (cs "DictKey_ActionRadioText_1")) = false ∧
    (∀ (text : Option (List Char)) (key : List Char),
      MizParser.jsIncludes (cs "ActionText") key = false →
      MizParser.jsIncludes (cs "ActionRadioText") key = false →
      MizParser.isSystemMessage text (some key) = false) := by
  refine ⟨by decide, by decide, ?_⟩
  intro text key h1 h2
  cases text with
  | none => rfl
  | some t =>
      simp only [MizParser.isSystemMessage, h1, h2, Bool.and_false, Bool.false_and,
        Bool.or_self, ite_self]

/-- Claim C7 (witness): the guard conjunct applied at a concrete key that
names neither field. -/
theorem claim_C7_witness :
    MizParser.isSystemMessage (some (cs "JAMMER COOLING 9 MINUTE"))
      (some (cs "DictKey_sortie")) = false :=
  claim_C7.2.2 (some (cs "JAMMER COOLING 9 MINUTE")) (cs "DictKey_sortie")
    (by decide) (by decide)

/-! ### Decoded values and the JavaScript object model

`LuaParser.parseTable` builds either a JS array (pure positional entries) or a
JS object.  A JS object is modelled as an association list in insertion order
with unique keys (`jset` updates in place, appends fresh keys); `jsEntries`
lists entries in ECMAScript own-key order: integer-like keys ascending first,
then string keys in insertion order.  A bracket-quoted numeric key such as
`["1"]` becomes the integer key `1`, exactly as a JS object canonicalises it
(`mkKey`).  A decoded number keeps the literal text accepted by `parseFloat`
(JS re-formats doubles on output, but no claim depends on numeric formatting).
-/

inductive JKey where
  | nat (n : Nat) : JKey
  | str (s : List Char) : JKey
deriving DecidableEq, Repr

inductive LVal where
  | str (s : List Char) : LVal
  | num (lit : List Char) : LVal
  | boolean (b : Bool) : LVal
  | nil : LVal
  | arr (items : List LVal) : LVal
  | obj (entries : List (JKey × LVal)) : LVal
deriving Repr

abbrev JObj := List (JKey × LVal)

/-- Property write `o[k] = v` on a JS object: update in place or append. -/
def jset (o : JObj) (k : JKey) (v : LVal) : JObj :=
  if o.any (fun e => e.1 = k) then o.map (fun e => if e.1 = k then (k, v) else e)
  else o ++ [(k, v)]

/-- Property read `o[k]` on a JS object (`none` = `undefined`). -/
def jget (o : JObj) (k : JKey) : Option LVal :=
  (o.find? (fun e => e.1 = k)).map (fun e => e.2)

def insSortedNat {α : Type} (e : Nat × α) : List (Nat × α) → List (Nat × α)
  | [] => [e]
  | f :: rest => if e.1 ≤ f.1 then e :: f :: rest else f :: insSortedNat e rest

def sortNat {α : Type} (l : List (Nat × α)) : List (Nat × α) := l.foldr insSortedNat []

/-- `Object.entries`-order view of a JS object: integer-like keys ascending,
then the remaining keys in insertion order. -/
def jsEntries (o : JObj) : JObj :=
  (sortNat (o.filterMap (fun e => match e.1 with
    | .nat n => some (n, e.2)
    | .str _ => none))).map (fun e => (JKey.nat e.1, e.2)) ++
  o.filter (fun e => match e.1 with | .nat _ => false | .str _ => true)

def isDigit (c : Char) : Bool := '0' ≤ c && c ≤ '9'

def isAlphaUnd (c : Char) : Bool :=
  ('a' ≤ c && c ≤ 'z') || ('A' ≤ c && c ≤ 'Z') || c = '_'

def isAlnumUnd (c : Char) : Bool := isAlphaUnd c || isDigit c

def isIdentDotChar (c : Char) : Bool := isAlnumUnd c || c = '.'

def digitsToNat (l : List Char) : Nat := l.foldl (fun n c => n * 10 + (c.toNat - 48)) 0

/-- The decimal string of a natural number. -/
def natDigits (n : Nat) : List Char := Nat.toDigits 10 n

/-- A JS object key made from a string: a canonical numeric string (digits
with no leading zero, or `0`) becomes an integer key. -/
def mkKey (s : List Char) : JKey :=
  if s ≠ [] ∧ s.all isDigit ∧ (s.head? ≠ some '0' ∨ s = ['0']) then .nat (digitsToNat s)
  else .str s

/-- String form of a JS object key (what `Object.entries` yields). -/
def keyStr : JKey → List Char
  | .nat n => natDigits n
  | .str s => s

namespace LuaParser

/-- LuaParser.handleEscape, the `switch` over escape characters. -/
def handleEscape (c : Char) : Char :=
  if c = 'n' then '\n'
  else if c = 't' then '\t'
  else if c = 'r' then '\r'
  else if c = bslash then bslash
  else if c = '"' then '"'
  else if c = squote then squote
  else if c = '0' then Char.ofNat 0
  else c

/-- LuaParser.unescapeString: `str.replace(/\\(.)/g, handleEscape)`.  The dot
does not match a newline, so a backslash before a newline is left alone. -/
def unescapeString : List Char → List Char
  | [] => []
  | [c] => [c]
  | c :: d :: rest2 =>
    if c = bslash then
      if d = '\n' then c :: unescapeString (d :: rest2)
      else handleEscape d :: unescapeString rest2
    else c :: unescapeString (d :: rest2)

/-- The scan loop of LuaParser.parseString, after the opening quote `q`:
returns the decoded value and the remainder after the closing quote; an
unterminated string consumes everything. -/
def parseStringAux (q : Char) : List Char → (List Char × List Char)
  | [] => ([], [])
  | c :: rest =>
    if c = bslash then
      match rest with
      | [] => ([], [])
      | d :: rest2 =>
        let (v, r) := parseStringAux q rest2
        (handleEscape d :: v, r)
    else if c = q then ([], rest)
    else
      let (v, r) := parseStringAux q rest
      (c :: v, r)

/-- Scan for the closing long-bracket pattern of a multi-line string: value
up to the pattern, remainder after it; unterminated consumes everything. -/
def mlScan (pat : List Char) : List Char → (List Char × List Char)
  | [] => ([], [])
  | c :: rest =>
    if pat.isPrefixOf (c :: rest) then ([], (c :: rest).drop pat.length)
    else
      let (v, r) := mlScan pat rest
      (c :: v, r)

/-- LuaParser.parseMultilineString, front-consuming.  The input starts at the
opening `[`.  The `[=[`-style branch of the source is included even though
`parseValue` only calls this when the second character is `[`. -/
def parseMultilineString (s : List Char) : (List Char × List Char) :=
  match s with
  | [] => ([], [])
  | _ :: rest =>
    match rest with
    | '=' :: _ =>
        let eqs := rest.takeWhile (fun c => c = '=')
        let after := rest.dropWhile (fun c => c = '=')
        let body := match after with | _ :: t => t | [] => []
        mlScan (']' :: (eqs ++ [']'])) body
    | _ =>
        let body := match rest with | _ :: t => t | [] => []
        mlScan [']', ']'] body

/-- Quote-skipping inside LuaParser.parseNestedTable: input starts after the
opening quote, output starts after the closing quote. -/
def skipQuotedFrom (q : Char) : List Char → List Char
  | [] => []
  | c :: rest =>
    if c = q then rest
    else if c = bslash then
      match rest with
      | [] => []
      | _ :: rest2 => skipQuotedFrom q rest2
    else skipQuotedFrom q rest

/-- Long-bracket skipping inside LuaParser.parseNestedTable: input starts
after the `[[`, output starts after the `]]`. -/
def skipMlFrom : List Char → List Char
  | [] => []
  | c :: rest =>
    if c = ']' ∧ rest.head? = some ']' then rest.tail
    else skipMlFrom rest

/-- The brace-depth scan of LuaParser.parseNestedTable: returns the remainder
after the matching `}` (`none` when unbalanced).  Depth is an `Int` as in the
source, where a stray `}` drives it negative. -/
def parseNestedTableScan : Nat → Int → List Char → Option (List Char)
  | 0, _, _ => none
  | _ + 1, _, [] => none
  | fuel + 1, depth, c :: rest =>
    if c = '{' then parseNestedTableScan fuel (depth + 1) rest
    else if c = '}' then
      if depth = 1 then some rest
      else parseNestedTableScan fuel (depth - 1) rest
    else if c = '"' ∨ c = squote then parseNestedTableScan fuel depth (skipQuotedFrom c rest)
    else if c = '[' ∧ rest.head? = some '[' then
      parseNestedTableScan fuel depth (skipMlFrom rest.tail)
    else parseNestedTableScan fuel depth rest

def isNumTokChar (c : Char) : Bool :=
  isDigit c || c = '.' || c = 'e' || c = 'E' || c = '+' || c = '-'

/-- The number-token scan of LuaParser.parseValue: an optional leading `-`,
then every character of the class `[\d.eE+-]`. -/
def numTokenSpan (s : List Char) : (List Char × List Char) :=
  match s with
  | '-' :: rest => ('-' :: rest.takeWhile isNumTokChar, rest.dropWhile isNumTokChar)
  | _ => (s.takeWhile isNumTokChar, s.dropWhile isNumTokChar)

/-- Exponent part of a `parseFloat` literal (included only when it carries at
least one digit). -/
def expPart (s : List Char) : List Char :=
  match s with
  | [] => []
  | e :: t =>
    if e = 'e' ∨ e = 'E' then
      let (es, t2) : List Char × List Char := match t with
        | '+' :: u => (['+'], u)
        | '-' :: u => (['-'], u)
        | _ => ([], t)
      let ds := t2.takeWhile isDigit
      if ds = [] then [] else e :: (es ++ ds)
    else []

/-- JavaScript `parseFloat`: the longest valid decimal-literal prefix of the
token, or `none` (`NaN`) if there is none. -/
def parseFloatPref (s : List Char) : Option (List Char) :=
  let (sgn, s1) : List Char × List Char := match s with
    | '+' :: t => (['+'], t)
    | '-' :: t => (['-'], t)
    | _ => ([], s)
  let ints := s1.takeWhile isDigit
  let s2 := s1.dropWhile isDigit
  if ints = [] then
    match s2 with
    | '.' :: t =>
        let frac := t.takeWhile isDigit
        if frac = [] then none
        else some (sgn ++ '.' :: (frac ++ expPart (t.dropWhile isDigit)))
    | _ => none
  else
    match s2 with
    | '.' :: t => some (sgn ++ ints ++ '.' :: (t.takeWhile isDigit ++ expPart (t.dropWhile isDigit)))
    | _ => some (sgn ++ ints ++ expPart s2)

/-- The raw-key scan of LuaParser.parseKeyValue for a bracket-quoted key:
collects characters (escapes included) up to the closing quote; returns the
raw key text and the remainder after the closing quote. -/
def keyQuoteScan (q : Char) : List Char → (List Char × List Char)
  | [] => ([], [])
  | [c] => if c = q then ([], []) else ([c], [])
  | c :: d :: rest2 =>
    if c = q then ([], d :: rest2)
    else if c = bslash then
      let (raw, r) := keyQuoteScan q rest2
      (c :: d :: raw, r)
    else
      let (raw, r) := keyQuoteScan q (d :: rest2)
      (c :: raw, r)

/-- LuaParser.parseValue, front-consuming.  `pt` is the table parser applied
to the span extracted by the nested-table scan (tying the recursive knot
through `parseTableF`'s fuel).  Returns the decoded value and remainder, or
`none` as in the source. -/
def parseValue (pt : List Char → LVal) (s0 : List Char) : Option (LVal × List Char) :=
  let s := s0.dropWhile isWsChar
  match s with
  | [] => none
  | c :: rest =>
    if c = '"' ∨ c = squote then
      let (v, r) := parseStringAux c rest
      some (.str v, r)
    else if c = '[' ∧ rest.head? = some '[' then
      let (v, r) := parseMultilineString (c :: rest)
      some (.str v, r)
    else if c = '{' then
      match parseNestedTableScan (s.length + 1) 0 s with
      | some r => some (pt (s.take (s.length - r.length)), r)
      | none => none
    else if (cs "true").isPrefixOf s then some (.boolean true, s.drop 4)
    else if (cs "false").isPrefixOf s then some (.boolean false, s.drop 5)
    else if (cs "nil").isPrefixOf s then some (.nil, s.drop 3)
    else if c = '-' ∨ isDigit c ∨ c = '.' then
      let (span, r) := numTokenSpan s
      match parseFloatPref span with
      | some lit => some (.num lit, r)
      | none => none
    else if isAlphaUnd c then
      some (.str (s.takeWhile isIdentDotChar), s.dropWhile isIdentDotChar)
    else none

/-- LuaParser.parseKeyValue, front-consuming: the key (bracketed string,
bracketed number — `parseInt` of no digits giving the `NaN` key — or bare
identifier followed by `=`), then the `[\s=]*` skip, then the value. -/
def parseKeyValue (pt : List Char → LVal) (s0 : List Char) : Option (JKey × LVal × List Char) :=
  let s := s0.dropWhile isWsChar
  let keyPart : Option (JKey × List Char) :=
    match s with
    | [] => none
    | c :: rest =>
      if c = '[' then
        match rest with
        | [] => some (.str (cs "NaN"), [])
        | q :: rest2 =>
          if q = '"' ∨ q = squote then
            let (raw, r) := keyQuoteScan q rest2
            some (mkKey (unescapeString raw), ((r.dropWhile (fun x => x ≠ ']')).drop 1))
          else
            let ds := rest.takeWhile isDigit
            let key := if ds = [] then JKey.str (cs "NaN") else JKey.nat (digitsToNat ds)
            some (key, (((rest.dropWhile isDigit).dropWhile (fun x => x ≠ ']')).drop 1))
      else if isAlphaUnd c then
        let afterIdent := (s.dropWhile isAlnumUnd).dropWhile isWsChar
        if afterIdent.head? = some '=' then some (mkKey (s.takeWhile isAlnumUnd), afterIdent)
        else none
      else none
  match keyPart with
  | none => none
  | some (key, afterKey) =>
    match parseValue pt (afterKey.dropWhile (fun c => isWsChar c || c = '=')) with
    | some (v, r) => some (key, v, r)
    | none => none

/-- The entry-scanning loop of LuaParser.parseTable: skip whitespace and
commas, try a key/value pair, else a positional value, else skip one
character.  `none` keys mark positional entries.  The fuel is at least the
length of the scanned text plus one, and every step consumes at least one
character, so it never runs out on the top-level call. -/
def scanEntries (pt : List Char → LVal) : Nat → List Char → List (Option JKey × LVal)
  | 0, _ => []
  | fuel + 1, s =>
    let s1 := s.dropWhile (fun c => isWsChar c || c = ',')
    match s1 with
    | [] => []
    | _ :: rest =>
      match parseKeyValue pt s1 with
      | some (k, v, r) => (some k, v) :: scanEntries pt fuel r
      | none =>
        match parseValue pt s1 with
        | some (v, r) => (none, v) :: scanEntries pt fuel r
        | none => scanEntries pt fuel rest

/-- The post-scan assembly of LuaParser.parseTable: a JS array when no
key/value pair was seen and at least one positional item was, otherwise a JS
object holding the keyed entries in encounter order with positional items
appended at their 1-based integer positions. -/
def assembleTable (entries : List (Option JKey × LVal)) : LVal :=
  let kvs := entries.filterMap (fun e => e.1.map (fun k => (k, e.2)))
  let arrayItems := entries.filterMap (fun e =>
    match e.1 with | none => some e.2 | some _ => none)
  if kvs.isEmpty && !arrayItems.isEmpty then .arr arrayItems
  else
    .obj ((arrayItems.enum).foldl (fun o iv => jset o (.nat (iv.1 + 1)) iv.2)
      (kvs.foldl (fun o kv => jset o kv.1 kv.2) []))

/-- The fallback table search of LuaParser.parseTable, `str.match(/\{[\s\S]*\}/)`:
the span from the first `{` to the last `}` after it, if any. -/
def braceSub (s : List Char) : Option (List Char) :=
  let fromBrace := s.dropWhile (fun c => c ≠ '{')
  if fromBrace = [] then none
  else
    let revDrop := fromBrace.reverse.dropWhile (fun c => c ≠ '}')
    if revDrop = [] then none else some revDrop.reverse

/-- LuaParser.parseTable.  The fuel bounds the brace-nesting depth; the
top-level call supplies more fuel than the text length, which nested-table
spans strictly shrink, so the fuel never runs out on reachable inputs. -/
def parseTableF : Nat → List Char → LVal
  | 0, _ => .obj []
  | fuel + 1, s0 =>
    let s1 := jsTrim s0
    let s2 :=
      if s1.head? = some '{' ∧ s1.getLast? = some '}' then some s1
      else braceSub s1
    match s2 with
    | none => .obj []
    | some s3 =>
        assembleTable (scanEntries (parseTableF fuel)
          ((jsTrim ((s3.drop 1).dropLast)).length + 1) (jsTrim ((s3.drop 1).dropLast)))

/-- Suffix finder for the lazy block-comment regex: the remainder after the
first `]]`, if any. -/
def findCloseBrk : List Char → Option (List Char)
  | [] => none
  | c :: rest =>
    if c = ']' ∧ rest.head? = some ']' then some rest.tail
    else findCloseBrk rest

/-- LuaParser.removeComments, first pass: strip `--[[ ... ]]` block comments
(lazy up to the first `]]`; an unterminated block comment is left in place,
as the regex then has no match). -/
def removeBlockComments : Nat → List Char → List Char
  | 0, l => l
  | fuel + 1, l =>
    match l with
    | [] => []
    | c :: rest =>
      if (cs "--[[").isPrefixOf l then
        match findCloseBrk (l.drop 4) with
        | some r => removeBlockComments fuel r
        | none => l
      else c :: removeBlockComments fuel rest

/-- LuaParser.removeComments, second pass: strip `-- ...` to end of line. -/
def removeLineComments : Nat → List Char → List Char
  | 0, l => l
  | _ + 1, [] => []
  | fuel + 1, c :: rest =>
    if c = '-' ∧ rest.head? = some '-' then
      removeLineComments fuel ((c :: rest).dropWhile (fun x => x ≠ '\n'))
    else c :: removeLineComments fuel rest

/-- LuaParser.removeComments: both passes in source order. -/
def removeComments (s : List Char) : List Char :=
  let b := removeBlockComments (s.length + 1) s
  removeLineComments (b.length + 1) b

/-- The tail of `/(?:dictionary\s*=\s*|return\s*)(\{[\s\S]*\})\s*;?\s*$/`:
strip a valid `\s*;?\s*` suffix and check that a `}` closes the capture;
returns the prefix of `s` ending at that `}`. -/
def dictReturnBody (s : List Char) : Option (List Char) :=
  let r1 := s.reverse.dropWhile isWsChar
  let r2 := match r1 with
    | ';' :: t => t.dropWhile isWsChar
    | _ => r1
  if r2.head? = some '}' then some r2.reverse else none

/-- The head of the same regex: leftmost position where `dictionary\s*=\s*`
or `return\s*` is followed by `{`; returns the suffix starting at that `{`. -/
def findDictOpen : Nat → List Char → Option (List Char)
  | 0, _ => none
  | _ + 1, [] => none
  | fuel + 1, l =>
    if (cs "dictionary").isPrefixOf l then
      match (l.drop 10).dropWhile isWsChar with
      | '=' :: a2 =>
          let a3 := a2.dropWhile isWsChar
          if a3.head? = some '{' then some a3 else findDictOpen fuel l.tail
      | _ => findDictOpen fuel l.tail
    else if (cs "return").isPrefixOf l then
      let a := (l.drop 6).dropWhile isWsChar
      if a.head? = some '{' then some a else findDictOpen fuel l.tail
    else findDictOpen fuel l.tail

/-- The whole `luaString.match(/(?:dictionary\s*=\s*|return\s*)(\{[\s\S]*\})\s*;?\s*$/)`
step: the captured `{...}` group when the regex matches. -/
def dictReturnMatch (s : List Char) : Option (List Char) :=
  match dictReturnBody s with
  | none => none
  | some body => findDictOpen (body.length + 1) body

/-- LuaParser.parse.  `none` models a non-string argument; with the empty
string both are rejected by the leading guard.  Strips a BOM, strips
comments, isolates a `dictionary = {...}` / `return {...}` body, and parses
the table; every failure path yields the empty object, and (the embedding
being a total function) no input can raise. -/
def parse (input : Option (List Char)) : LVal :=
  match input with
  | none => .obj []
  | some s0 =>
    if s0 = [] then .obj []
    else
      let s1 := if s0.head? = some (Char.ofNat 0xfeff) then s0.tail else s0
      let s2 := removeComments s1
      let s3 := match dictReturnMatch s2 with
        | some cap => cap
        | none => s2
      parseTableF (s3.length + 2) (jsTrim s3)

end LuaParser

/-- Discriminator: is the decoded value a sequence (JS array)? -/
def LVal.isArr : LVal → Bool
  | .arr _ => true
  | _ => false

theorem assembleTable_arr_iff (entries : List (Option JKey × LVal)) :
    LVal.isArr (LuaParser.assembleTable entries) = true ↔
      (entries ≠ [] ∧ ∀ e ∈ entries, e.1 = none) := by
  unfold LuaParser.assembleTable
  by_cases h : ((entries.filterMap (fun e => e.1.map (fun k => (k, e.2)))).isEmpty &&
      !(entries.filterMap (fun e =>
        match e.1 with | none => some e.2 | some _ => none)).isEmpty) = true
  · rw [if_pos h]
    simp only [LVal.isArr]
    constructor
    · intro _
      rw [Bool.and_eq_true] at h
      obtain ⟨h1, h2⟩ := h
      constructor
      · intro he
        subst he
        simp at h2
      · intro e he
        rw [List.isEmpty_iff, List.filterMap_eq_nil_iff] at h1
        have := h1 e he
        cases hke : e.1 with
        | none => rfl
        | some k => rw [hke] at this; simp at this
    · intro _; trivial
  · rw [if_neg h]
    simp only [LVal.isArr]
    constructor
    · intro hh; exact absurd hh (by simp)
    · rintro ⟨hne, hall⟩
      exfalso
      apply h
      rw [Bool.and_eq_true]
      constructor
      · rw [List.isEmpty_iff, List.filterMap_eq_nil_iff]
        intro e he
        rw [hall e he]
        rfl
      · cases entries with
        | nil => exact absurd rfl hne
        | cons e t =>
            have h0 : e.1 = none := hall e (by simp)
            simp [List.filterMap_cons, h0]

/-- Claim C3 (counterexample): in `{[1]=1,[2]=2}` every key is an explicit
integer forming a contiguous 1-based run and no string key occurs, yet
`decode` returns a Table (JS object), not a Sequence — `parseTable` marks the
scan as non-array as soon as any bracketed key/value entry parses. -/
theorem claim_C3_counterexample :
    LuaParser.parse (some (cs "\x7b[1]=1,[2]=2\x7d")) =
      LVal.obj [(JKey.nat 1, LVal.num (cs "1")), (JKey.nat 2, LVal.num (cs "2"))] ∧
    LVal.isArr (LuaParser.parse (some (cs "\x7b[1]=1,[2]=2\x7d"))) = false :=
  ⟨rfl, rfl⟩

/-- Claim C3 (amended): after a table's entries are collected, `decode`
returns a Sequence exactly when at least one entry was parsed and every entry
was purely positional (no explicit key at all — an explicit integer key also
forces a Table); otherwise it returns a Table with keyed entries in encounter
order and positional items appended at their 1-based integer positions.
`decode("{1,2,3}")` yields a Sequence of length 3, and
`decode("{[1]=1,[\"x\"]=2}")` yields a Table containing both entries. -/
theorem claim_C3_amended :
    (∀ entries : List (Option JKey × LVal),
      LVal.isArr (LuaParser.assembleTable entries) = true ↔
        (entries ≠ [] ∧ ∀ e ∈ entries, e.1 = none)) ∧
    LuaParser.parse (some (cs "\x7b1,2,3\x7d")) =
      LVal.arr [LVal.num (cs "1"), LVal.num (cs "2"), LVal.num (cs "3")] ∧
    LuaParser.parse (some (cs "\x7b[1]=1,[\"x\"]=2\x7d")) =
      LVal.obj [(JKey.nat 1, LVal.num (cs "1")), (JKey.str (cs "x"), LVal.num (cs "2"))] :=
  ⟨assembleTable_arr_iff, rfl, rfl⟩

/-- Claim C3 (witness): the sequence criterion applied to a concrete
entry list. -/
theorem claim_C3_witness :
    LVal.isArr (LuaParser.assembleTable [(none, LVal.num (cs "7"))]) = true :=
  (claim_C3_amended.1 [(none, LVal.num (cs "7"))]).mpr (by simp)

/-- Claim C4: the decoder is total — `parse` is a total function returning a
value for every input (no exception path exists in the embedding; the JS
`try`/`catch` wrapper is unreachable) — and on non-string input (`none`), the
empty string, text with no table at all, and an unterminated table literal it
returns the empty table, so a corrupt dictionary yields `{}` instead of
blocking the pipeline. -/
theorem claim_C4 :
    LuaParser.parse none = LVal.obj [] ∧
    LuaParser.parse (some (cs "")) = LVal.obj [] ∧
    LuaParser.parse (some (cs "this is not a table")) = LVal.obj [] ∧
    LuaParser.parse (some (cs "mission = \x7b[\"k\"] = \"v\"")) = LVal.obj [] :=
  ⟨rfl, rfl, rfl, rfl⟩

/-! ### JavaScript value helpers for the extraction layer -/

/-- Truthiness of a decoded value.  A number is falsy exactly when its
mantissa is zero (`NaN` cannot arise from a `parseFloat`-accepted literal). -/
def jsTruthy : LVal → Bool
  | .str s => !s.isEmpty
  | .num lit => !((lit.takeWhile (fun c => c ≠ 'e' ∧ c ≠ 'E')).all
      (fun c => c = '0' ∨ c = '.' ∨ c = '+' ∨ c = '-'))
  | .boolean b => b
  | .nil => false
  | .arr _ => true
  | .obj _ => true

/-- Property access `v.name` (`none` = `undefined`).  Only non-numeric names
are ever accessed, and none of the special array/string properties. -/
def getProp (v : LVal) (name : List Char) : Option LVal :=
  match v with
  | .obj es => jget es (mkKey name)
  | _ => none

/-- `String(v)` as used in template literals for path strings.  A number
prints its source literal (JS re-formats the double); arrays and objects
print placeholders — name fields are strings in practice, and no claim
depends on these cases. -/
def jsToString : LVal → List Char
  | .str s => s
  | .num lit => lit
  | .boolean b => if b then cs "true" else cs "false"
  | .nil => cs "null"
  | .arr _ => cs "[array]"
  | .obj _ => cs "[object Object]"

/-- `Object.values(v)`. -/
def jsValues : LVal → List LVal
  | .obj es => (jsEntries es).map (fun e => e.2)
  | .arr items => items
  | .str s => s.map (fun c => .str [c])
  | _ => []

/-- `Array.isArray(v) ? v : Object.values(v)`, the list-coercion idiom used
throughout the extractors. -/
def arrOrValues (v : LVal) : List LVal :=
  match v with
  | .arr items => items
  | _ => jsValues v

/-- The view of a decoded value as a JS object for `Object.assign` /
`Object.keys` (a decoded dictionary is always an object or an array). -/
def toObj : LVal → JObj
  | .obj es => es
  | .arr items => items.enum.map (fun iv => (JKey.nat iv.1, iv.2))
  | _ => []

/-- `v || dflt` for a context value defaulted by a string literal. -/
def ctxOr (v : Option LVal) (dflt : List Char) : LVal :=
  match v with
  | some x => if jsTruthy x then x else .str dflt
  | none => .str dflt

namespace MizParser

/-- An extracted item `{category, context, text}`. -/
structure Item where
  category : List Char
  context : LVal
  text : List Char
deriving Repr

/-- MizParser.cleanText applied to a decoded value (the `typeof` guard
rejects non-strings). -/
def cleanTextJS (v : LVal) : Option (List Char) :=
  cleanText (match v with | .str s => some s | _ => none)

/-- The result object of MizParser.resolveText with `returnWithKey = true`. -/
structure Resolved where
  text : Option (List Char)
  dictKey : Option (List Char)

/-- MizParser.resolveText (the `returnWithKey = true` form used by every
extractor): `none` models the JS `null` returns. -/
def resolveText (value : LVal) (dictionary : JObj) : Option Resolved :=
  if !jsTruthy value then none
  else match value with
    | .str s =>
      if (cs "DictKey_").isPrefixOf s then
        match jget dictionary (mkKey s) with
        | some v => if jsTruthy v then some ⟨cleanTextJS v, some s⟩ else none
        | none => none
      else some ⟨cleanTextJS (.str s), none⟩
    | _ => none

/-- MizParser._extractFromDictionary: scan the dictionary entries (in JS
object order) for keys with one of the prefixes, clean the value, drop
system messages.  No deduplication happens here. -/
def extractFromDictionary (dictionary : JObj) (prefixes : List (List Char))
    (category : List Char) : List Item :=
  (jsEntries dictionary).foldl (fun acc e =>
    if prefixes.any (fun p => p.isPrefixOf (keyStr e.1)) then
      match cleanTextJS e.2 with
      | some text =>
          if isSystemMessage (some text) (some (keyStr e.1)) then acc
          else acc ++ [⟨category, .str (keyStr e.1), text⟩]
      | none => acc
    else acc) []

def groupTypes : List (List Char) := [cs "plane", cs "helicopter", cs "vehicle",
  cs "ship", cs "static"]

/-- `x.name || 'Unknown'` stringified for a path component. -/
def nameOrUnknown (v : LVal) : List Char :=
  match getProp v (cs "name") with
  | some n => if jsTruthy n then jsToString n else cs "Unknown"
  | none => cs "Unknown"

/-- MizParser.traverseGroups as the list of `(group, path)` callback
arguments, in callback order. -/
def traverseGroups (coalitionData : LVal) : List (LVal × List Char) :=
  match getProp coalitionData (cs "country") with
  | none => []
  | some countryVal =>
    if !jsTruthy countryVal then [] else
    (arrOrValues countryVal).foldl (fun acc country =>
      if !jsTruthy country then acc else
      acc ++ groupTypes.foldl (fun acc2 gt =>
        match getProp country gt with
        | none => acc2
        | some typeData =>
          match getProp typeData (cs "group") with
          | none => acc2
          | some groupVal =>
            if !jsTruthy groupVal then acc2 else
            acc2 ++ (arrOrValues groupVal).filterMap (fun g =>
              if jsTruthy g then
                some (g, nameOrUnknown country ++ '/' :: gt ++ '/' :: nameOrUnknown g)
              else none)) []) []

/-- MizParser.traverseUnits as the list of `(unit, path)` callback
arguments. -/
def traverseUnits (coalitionData : LVal) : List (LVal × List Char) :=
  (traverseGroups coalitionData).foldl (fun acc gp =>
    match getProp gp.1 (cs "units") with
    | none => acc
    | some unitsVal =>
      if !jsTruthy unitsVal then acc else
      acc ++ (arrOrValues unitsVal).filterMap (fun u =>
        if jsTruthy u then some (u, gp.2) else none)) []

def briefingKeys : List (List Char) := [cs "sortie", cs "descriptionText",
  cs "descriptionBlueTask", cs "descriptionRedTask", cs "descriptionNeutralsTask"]

/-- MizParser.formatContextName. -/
def formatContextName (key : List Char) : List Char :=
  if key = cs "sortie" then cs "Mission Name"
  else if key = cs "descriptionText" then cs "Description"
  else if key = cs "descriptionBlueTask" then cs "Blue Task"
  else if key = cs "descriptionRedTask" then cs "Red Task"
  else if key = cs "descriptionNeutralsTask" then cs "Neutral Task"
  else key

/-- MizParser.extractBriefings. -/
def extractBriefings (mission : LVal) (dictionary : JObj) : List Item :=
  if !jsTruthy mission then [] else
  briefingKeys.foldl (fun acc key =>
    match getProp mission key with
    | none => acc
    | some v =>
      if !jsTruthy v then acc else
      match resolveText v dictionary with
      | none => acc
      | some res =>
        match res.text with
        | some text =>
            acc ++ [⟨cs "Briefing", .str (res.dictKey.getD (formatContextName key)), text⟩]
        | none => acc) []

def coalitionNames : List (List Char) := [cs "blue", cs "red", cs "neutrals"]

/-- MizParser.extractTasks. -/
def extractTasks (mission : LVal) (dictionary : JObj) : List Item :=
  if !jsTruthy mission then [] else
  coalitionNames.foldl (fun acc coal =>
    match (getProp mission (cs "coalition")).bind (fun c => getProp c coal) with
    | none => acc
    | some coalitionData =>
      if !jsTruthy coalitionData then acc else
      acc ++ (traverseGroups coalitionData).foldl (fun acc2 gp =>
        match getProp gp.1 (cs "task") with
        | none => acc2
        | some taskVal =>
          if !jsTruthy taskVal then acc2 else
          match resolveText taskVal dictionary with
          | none => acc2
          | some res =>
            match res.text with
            | some text =>
                acc2 ++ [⟨cs "Task",
                  .str (res.dictKey.getD (coal ++ '/' :: gp.2)), text⟩]
            | none => acc2) []) []

/-- MizParser.extractUnits (deduplicates globally by resolved text). -/
def extractUnits (mission : LVal) (dictionary : JObj) : List Item :=
  if !jsTruthy mission then [] else
  (coalitionNames.foldl (fun st coal =>
    match (getProp mission (cs "coalition")).bind (fun c => getProp c coal) with
    | none => st
    | some coalitionData =>
      if !jsTruthy coalitionData then st else
      (traverseUnits coalitionData).foldl (fun st2 up =>
        match getProp up.1 (cs "name") with
        | none => st2
        | some nameVal =>
          if !jsTruthy nameVal then st2 else
          match resolveText nameVal dictionary with
          | none => st2
          | some res =>
            match res.text with
            | some text =>
                if text ∈ st2.1 then st2
                else (st2.1 ++ [text], st2.2 ++ [⟨cs "Unit",
                  .str (res.dictKey.getD (coal ++ '/' :: up.2)), text⟩])
            | none => st2) st) (([], []) : List (List Char) × List Item)).2

/-- MizParser.extractWaypoints. -/
def extractWaypoints (mission : LVal) (dictionary : JObj) : List Item :=
  if !jsTruthy mission then [] else
  coalitionNames.foldl (fun acc coal =>
    match (getProp mission (cs "coalition")).bind (fun c => getProp c coal) with
    | none => acc
    | some coalitionData =>
      if !jsTruthy coalitionData then acc else
      acc ++ (traverseGroups coalitionData).foldl (fun acc2 gp =>
        match (getProp gp.1 (cs "route")).bind (fun r => getProp r (cs "points")) with
        | none => acc2
        | some pointsVal =>
          if !jsTruthy pointsVal then acc2 else
          acc2 ++ (arrOrValues pointsVal).enum.foldl (fun acc3 ip =>
            if !jsTruthy ip.2 then acc3 else
            let wp := gp.2 ++ cs "/WP" ++ natDigits (ip.1 + 1)
            let acc4 := match getProp ip.2 (cs "name") with
              | none => acc3
              | some nv =>
                if !jsTruthy nv then acc3 else
                match resolveText nv dictionary with
                | none => acc3
                | some res =>
                  match res.text with
                  | some text =>
                      acc3 ++ [⟨cs "Waypoint", .str (res.dictKey.getD wp), text⟩]
                  | none => acc3
            match getProp ip.2 (cs "comment") with
            | none => acc4
            | some cv =>
              if !jsTruthy cv then acc4 else
              match resolveText cv dictionary with
              | none => acc4
              | some res =>
                match res.text with
                | some text =>
                    acc4 ++ [⟨cs "Waypoint",
                      .str (res.dictKey.getD (wp ++ cs " Comment")), text⟩]
                | none => acc4) []) []) []

end MizParser

namespace MizParser

def isWordChar (c : Char) : Bool := isAlnumUnd c

/-- The quote-group search of `/outText(?:For\w+)?\s*\([^)]*?["']([^"']+)["']/`
after the opening parenthesis: the lazy `[^)]*?` cannot cross `)`, and the
first quote at which a non-empty quote-to-quote group closes wins. -/
def lazyQuote : List Char → Option (List Char × List Char)
  | [] => none
  | c :: rest =>
    if c = ')' then none
    else if c = '"' ∨ c = squote then
      let run := rest.takeWhile (fun x => x ≠ '"' ∧ x ≠ squote)
      let r2 := rest.dropWhile (fun x => x ≠ '"' ∧ x ≠ squote)
      if run ≠ [] ∧ r2 ≠ [] then some (run, r2.tail)
      else lazyQuote rest
    else lazyQuote rest

/-- One attempted match of the `outText` pattern anchored at the head of `s`:
the optional `For\w+` (greedy, all-or-nothing as in the regex), then `\s*`,
`(`, and the lazy quote group.  Returns the captured text and the remainder
after the full match. -/
def outTextMatchAt (s : List Char) : Option (List Char × List Char) :=
  if (cs "outText").isPrefixOf s then
    let after := s.drop 7
    let tail2 :=
      if (cs "For").isPrefixOf after && (match (after.drop 3).head? with
          | some c => isWordChar c | none => false) then
        (after.drop 3).dropWhile isWordChar
      else after
    match (tail2.dropWhile isWsChar) with
    | '(' :: rest => lazyQuote rest
    | _ => none
  else none

/-- `action.matchAll(/outText(?:For\w+)?\s*\([^)]*?["']([^"']+)["']/g)`:
all captured first-argument texts, in order. -/
def outTextScanAll : Nat → List Char → List (List Char)
  | 0, _ => []
  | _ + 1, [] => []
  | fuel + 1, s@(_ :: rest) =>
    match outTextMatchAt s with
    | some (cap, r) => cap :: outTextScanAll fuel r
    | none => outTextScanAll fuel rest

/-- `action.matchAll(/["']([^"']*\.ogg)["']/g)`: quoted `.ogg` file names. -/
def oggScanAll : Nat → List Char → List (List Char)
  | 0, _ => []
  | _ + 1, [] => []
  | fuel + 1, c :: rest =>
    if c = '"' ∨ c = squote then
      let run := rest.takeWhile (fun x => x ≠ '"' ∧ x ≠ squote)
      let r2 := rest.dropWhile (fun x => x ≠ '"' ∧ x ≠ squote)
      if r2 ≠ [] ∧ (cs ".ogg").isSuffixOf run then run :: oggScanAll fuel r2.tail
      else oggScanAll fuel rest
    else oggScanAll fuel rest

/-- `action.matchAll(/ResKey_(\w+)/g)`: the captured `\w+` suffixes. -/
def resKeyScanAll : Nat → List Char → List (List Char)
  | 0, _ => []
  | _ + 1, [] => []
  | fuel + 1, s@(_ :: rest) =>
    if (cs "ResKey_").isPrefixOf s then
      let w := (s.drop 7).takeWhile isWordChar
      if w ≠ [] then w :: resKeyScanAll fuel ((s.drop 7).dropWhile isWordChar)
      else resKeyScanAll fuel rest
    else resKeyScanAll fuel rest

/-- The `addUnique` closure shared by `extractTriggers` and
`extractRadioMessages`: clean the text, skip when already seen, else record
it.  State = (seen cleaned texts, result items). -/
def addUnique (category dflt : List Char) (st : List (List Char) × List Item)
    (c : List Char × LVal) : List (List Char) × List Item :=
  match cleanText (some c.1) with
  | some cl =>
      if cl ∈ st.1 then st
      else (st.1 ++ [cl], st.2 ++ [⟨category, if jsTruthy c.2 then c.2 else .str dflt, cl⟩])
  | none => st

/-- The `(text, context)` arguments fed to `addUnique` by the modern
`mission.triggers.triggers` walk of `extractTriggers` (source 1). -/
def triggersCandidates (mission : LVal) : List (List Char × LVal) :=
  match (getProp mission (cs "triggers")).bind (fun t => getProp t (cs "triggers")) with
  | none => []
  | some tv =>
    if !jsTruthy tv then [] else
    (arrOrValues tv).foldl (fun acc trig =>
      match getProp trig (cs "actions") with
      | none => acc
      | some av =>
        if !jsTruthy av then acc else
        acc ++ (arrOrValues av).foldl (fun acc2 action =>
          match action with
          | .str astr =>
              acc2 ++ (outTextScanAll (astr.length + 1) astr).map
                (fun cap => (cap, ctxOr (getProp trig (cs "comment")) (cs "Trigger Action")))
          | _ => acc2) []) []

/-- Source 2 of `extractTriggers`: `mission.trig.actions`. -/
def trigCandidates (mission : LVal) : List (List Char × LVal) :=
  match (getProp mission (cs "trig")).bind (fun t => getProp t (cs "actions")) with
  | none => []
  | some av =>
    if !jsTruthy av then [] else
    (arrOrValues av).foldl (fun acc action =>
      match action with
      | .str astr =>
          acc ++ (outTextScanAll (astr.length + 1) astr).map
            (fun cap => (cap, LVal.str (cs "Legacy Trigger")))
      | _ => acc) []

/-- The radio-action test of the `trigrules` walk of `extractTriggers`. -/
def isRadioAction (action : LVal) : Bool :=
  (match getProp action (cs "radioText") with
   | some v => jsTruthy v
   | none => false) ||
  (match getProp action (cs "id") with
   | some idv =>
      jsTruthy idv &&
        (match idv with
         | .str s => jsIncludes (cs "radio") (s.map lowerAscii) ||
             jsIncludes (cs "transmit") (s.map lowerAscii)
         | _ => false)
   | none => false)

/-- Source 3 of `extractTriggers`: the old `mission.trigrules` format, with
radio-specific actions excluded, `text` and `message` fields resolved against
the dictionary. -/
def trigrulesCandidates (mission : LVal) (dictionary : JObj) : List (List Char × LVal) :=
  match getProp mission (cs "trigrules") with
  | none => []
  | some tv =>
    if !jsTruthy tv then [] else
    (arrOrValues tv).foldl (fun acc rule =>
      if !(jsTruthy rule && (match rule with | .obj _ => true | .arr _ => true | _ => false))
      then acc else
      match getProp rule (cs "actions") with
      | none => acc
      | some av =>
        if !jsTruthy av then acc else
        acc ++ (arrOrValues av).foldl (fun acc2 action =>
          if !jsTruthy action then acc2 else
          if isRadioAction action then acc2 else
          [cs "text", cs "message"].foldl (fun acc3 key =>
            match getProp action key with
            | none => acc3
            | some fieldVal =>
              if !jsTruthy fieldVal then acc3 else
              match resolveText fieldVal dictionary with
              | none => acc3
              | some res =>
                match res.text with
                | some text =>
                    acc3 ++ [(text,
                      match res.dictKey with
                      | some k => LVal.str k
                      | none => ctxOr (getProp rule (cs "comment")) (cs "Trigger Message"))]
                | none => acc3) acc2) []) []

/-- The three trigger sources of MizParser.extractTriggers folded through the
shared `addUnique` (deduplication by cleaned text across all three). -/
def extractTriggersWalk (mission : LVal) (dictionary : JObj) : List Item :=
  ((triggersCandidates mission ++ trigCandidates mission ++
    trigrulesCandidates mission dictionary).foldl
      (addUnique (cs "Trigger") (cs "Trigger Message")) ([], [])).2

/-- MizParser.extractTriggers: the deduplicating three-source walk, then —
only when it found nothing — the `DictKey_ActionText_` dictionary scan
(which does not deduplicate).  The dictionary argument is the merged
dictionary object, which is always truthy. -/
def extractTriggers (mission : LVal) (dictionary : JObj) : List Item :=
  let walk := extractTriggersWalk mission dictionary
  if walk.isEmpty then
    extractFromDictionary dictionary [cs "DictKey_ActionText_"] (cs "Trigger")
  else walk

end MizParser

/-- JSON string escaping (`JSON.stringify` on a string value). -/
def jsonEscape (s : List Char) : List Char :=
  s.foldr (fun c acc =>
    (if c = '"' then [bslash, '"']
     else if c = bslash then [bslash, bslash]
     else if c = '\n' then [bslash, 'n']
     else if c = '\r' then [bslash, 'r']
     else if c = '\t' then [bslash, 't']
     else if c.toNat = 8 then [bslash, 'b']
     else if c.toNat = 12 then [bslash, 'f']
     else if c.toNat < 32 then
       [bslash, 'u', '0', '0', Nat.digitChar (c.toNat / 16), Nat.digitChar (c.toNat % 16)]
     else [c]) ++ acc) []

/-- Comma-join of serialised pieces. -/
def joinComma (l : List (List Char)) : List Char := List.intercalate [','] l

/-- Canonical JS key order applied to already-serialised object members. -/
def jsonCanon (l : List (JKey × List Char)) : List (List Char) :=
  (sortNat (l.filterMap (fun e => match e.1 with
    | .nat n => some (n, e.2)
    | .str _ => none))).map (fun e => e.2) ++
  (l.filter (fun e => match e.1 with | .nat _ => false | .str _ => true)).map
    (fun e => e.2)

mutual

/-- `JSON.stringify` on a decoded value (keys in JS object order, applied to
the serialised members by `jsonCanon`; a number prints its source literal —
the result is used only for substring gating in `extractRadioMessages`). -/
def jsonStringify : LVal → List Char
  | .str s => '"' :: (jsonEscape s ++ ['"'])
  | .num lit => lit
  | .boolean b => if b then cs "true" else cs "false"
  | .nil => cs "null"
  | .arr items => '[' :: (joinComma (jsonStringifyList items) ++ [']'])
  | .obj es => '{' :: (joinComma (jsonCanon (jsonStringifyObj es)) ++ ['}'])

def jsonStringifyList : List LVal → List (List Char)
  | [] => []
  | v :: rest => jsonStringify v :: jsonStringifyList rest

def jsonStringifyObj : List (JKey × LVal) → List (JKey × List Char)
  | [] => []
  | e :: rest =>
      (e.1, '"' :: (jsonEscape (keyStr e.1) ++ ['"', ':'] ++ jsonStringify e.2)) ::
        jsonStringifyObj rest

end

namespace MizParser

/-- The `searchInActions` closure of MizParser.extractRadioMessages, as the
list of `(text, context)` pairs it feeds to `addUnique`, in order: `outText`
subtitles, then quoted `.ogg` names of `radioTransmission` actions, then
resolved `ResKey_` resource paths. -/
def searchInActionsCandidates (mapResource : Option LVal) (actions : LVal)
    (contextPref : LVal) : List (List Char × LVal) :=
  (arrOrValues actions).foldl (fun acc action =>
    match action with
    | .str astr =>
      let acc1 := acc ++ (outTextScanAll (astr.length + 1) astr).map
        (fun cap => (cap, if jsTruthy contextPref then contextPref
          else .str (cs "Radio Subtitle")))
      let acc2 :=
        if jsIncludes (cs "radioTransmission") astr then
          acc1 ++ (oggScanAll (astr.length + 1) astr).map
            (fun m => (cs "[Radio Sound] " ++ m,
              if jsTruthy contextPref then contextPref else .str (cs "Radio Audio")))
        else acc1
      match mapResource with
      | some mr =>
        if jsTruthy mr && jsIncludes (cs "ResKey_") astr then
          acc2 ++ (resKeyScanAll (astr.length + 1) astr).foldl (fun acc3 w =>
            match getProp mr (cs "ResKey_" ++ w) with
            | some path =>
              if jsTruthy path && (match path with | .str _ => true | _ => false) then
                acc3 ++ [((cs "[Resource] ") ++ jsToString path,
                  if jsTruthy contextPref then contextPref else .str (cs "Radio Resource"))]
              else acc3
            | none => acc3) []
        else acc2
      | none => acc2
    | _ => acc) []

/-- The `(text, context)` pairs fed to `addUnique` by
MizParser.extractRadioMessages before its dictionary fallback: the
JSON-gated modern and legacy trigger walks, the `trigrules` radio actions,
and the group radio settings. -/
def radioCandidates (mission : LVal) (dictionary : JObj) (mapResource : Option LVal) :
    List (List Char × LVal) :=
  let src1 :=
    match (getProp mission (cs "triggers")).bind (fun t => getProp t (cs "triggers")) with
    | none => []
    | some tv =>
      if !jsTruthy tv then [] else
      (arrOrValues tv).foldl (fun acc t =>
        match getProp t (cs "actions") with
        | none => acc
        | some av =>
          if !jsTruthy av then acc else
          let actionsStr := jsonStringify av
          if jsIncludes (cs "radioTransmission") actionsStr ||
              jsIncludes (cs "Radio") actionsStr then
            acc ++ searchInActionsCandidates mapResource av
              (ctxOr (getProp t (cs "comment")) (cs "Radio Trigger"))
          else acc) []
  let src2 :=
    match (getProp mission (cs "trig")).bind (fun t => getProp t (cs "actions")) with
    | none => []
    | some av =>
      let actionsStr := jsonStringify av
      if jsIncludes (cs "radioTransmission") actionsStr ||
          jsIncludes (cs "Radio") actionsStr then
        searchInActionsCandidates mapResource av (.str (cs "Legacy Radio"))
      else []
  let src3 :=
    match getProp mission (cs "trigrules") with
    | none => []
    | some tv =>
      if !jsTruthy tv then [] else
      (arrOrValues tv).foldl (fun acc rule =>
        match getProp rule (cs "actions") with
        | none => acc
        | some av =>
          if !jsTruthy av then acc else
          acc ++ (arrOrValues av).foldl (fun acc2 action =>
            if !jsTruthy action then acc2 else
            let hasFile := match getProp action (cs "file") with
              | some v => jsTruthy v | none => false
            let hasRadioText := match getProp action (cs "radioText") with
              | some v => jsTruthy v | none => false
            let idRadio := match getProp action (cs "id") with
              | some idv => jsTruthy idv && (match idv with
                  | .str s => jsIncludes (cs "radio") (s.map lowerAscii)
                  | _ => false)
              | none => false
            if hasRadioText || hasFile || idRadio then
              let textKey :=
                if hasRadioText then getProp action (cs "radioText")
                else if hasFile then getProp action (cs "file")
                else getProp action (cs "text")
              match textKey with
              | none => acc2
              | some tkv =>
                if !jsTruthy tkv then acc2 else
                match resolveText tkv dictionary with
                | none => acc2
                | some res =>
                  match res.text with
                  | some text =>
                      acc2 ++ [(text,
                        match res.dictKey with
                        | some k => LVal.str k
                        | none => ctxOr (getProp rule (cs "comment")) (cs "Radio Message"))]
                  | none => acc2
            else acc2) []) []
  let src4 :=
    match getProp mission (cs "coalition") with
    | none => []
    | some coalVal =>
      if !jsTruthy coalVal then [] else
      coalitionNames.foldl (fun acc coal =>
        match getProp coalVal coal with
        | none => acc
        | some coalitionData =>
          if !jsTruthy coalitionData then acc else
          acc ++ (traverseGroups coalitionData).foldl (fun acc2 gp =>
            let hasRadio := match getProp gp.1 (cs "radio") with
              | some v => jsTruthy v | none => false
            let hasFreq := match getProp gp.1 (cs "frequency") with
              | some v => jsTruthy v | none => false
            if hasRadio || hasFreq then
              [cs "radioText", cs "message", cs "radioMessage"].foldl (fun acc3 key =>
                match getProp gp.1 key with
                | none => acc3
                | some gv =>
                  if !jsTruthy gv then acc3 else
                  match resolveText gv dictionary with
                  | none => acc3
                  | some res =>
                    match res.text with
                    | some text =>
                        acc3 ++ [(text,
                          match res.dictKey with
                          | some k => LVal.str k
                          | none => LVal.str gp.2)]
                    | none => acc3) acc2
            else acc2) []) []
  src1 ++ src2 ++ src3 ++ src4

/-- MizParser.extractRadioMessages: the candidate walk folded through
`addUnique`, then — only when it found nothing — the
`DictKey_subtitle_` / `DictKey_ActionRadioText_` dictionary scan. -/
def extractRadioMessages (mission : LVal) (dictionary : JObj)
    (mapResource : Option LVal) : List Item :=
  let walk := ((radioCandidates mission dictionary mapResource).foldl
    (addUnique (cs "Radio") (cs "Radio Transmission")) ([], [])).2
  if walk.isEmpty then
    extractFromDictionary dictionary
      [cs "DictKey_subtitle_", cs "DictKey_ActionRadioText_"] (cs "Radio")
  else walk

end MizParser

namespace MizParser

/-- The result object of MizParser.parse consumed by `extractText`:
`dictionaries` and `mapResources` are JS objects keyed by locale name
(insertion order, later writes override in place). -/
structure ParsedData where
  mission : LVal
  dictionaries : List (List Char × LVal)
  mapResources : List (List Char × LVal)
  availableLocales : List (List Char)

/-- Assoc-list read for the locale-keyed objects of `ParsedData`. -/
def aget (m : List (List Char × LVal)) (k : List Char) : Option LVal :=
  (m.find? (fun e => e.1 = k)).map (fun e => e.2)

/-- Assoc-list write (update in place or append), the JS property-set. -/
def aset (m : List (List Char × LVal)) (k : List Char) (v : LVal) :
    List (List Char × LVal) :=
  if m.any (fun e => e.1 = k) then m.map (fun e => if e.1 = k then (k, v) else e)
  else m ++ [(k, v)]

/-- `Object.assign(target, src)`: copy the entries of `src` (in JS own-key
order) onto `target`. -/
def jAssign (target src : JObj) : JObj :=
  (jsEntries src).foldl (fun t e => jset t e.1 e.2) target

/-- The dictionary-selection block of MizParser.extractText (issue #50):
start from the `DEFAULT` entries, overlay the selected locale's entries when
that locale differs from `DEFAULT` and is non-empty, else keep `DEFAULT`;
when both are empty fall back to the first available locale's dictionary
(or keep the empty merge and the preferred locale when none exists).
Returns the merged dictionary and `result.locale`. -/
def selectDictionary (pd : ParsedData) (preferredLocale : List Char) :
    JObj × List Char :=
  let defaultDict := toObj ((aget pd.dictionaries (cs "DEFAULT")).getD (.obj []))
  let localeDict := toObj ((aget pd.dictionaries preferredLocale).getD (.obj []))
  let d1 := jAssign [] defaultDict
  if preferredLocale ≠ cs "DEFAULT" ∧ ¬localeDict.isEmpty then
    (jAssign d1 localeDict, preferredLocale)
  else if ¬defaultDict.isEmpty then (d1, cs "DEFAULT")
  else
    match pd.availableLocales.head? with
    | some first => (toObj ((aget pd.dictionaries first).getD (.obj [])), first)
    | none => (d1, preferredLocale)

structure ExtractOptions where
  mode : List Char := cs "auto"
  categories : List (List Char) := []
  preferredLocale : List Char := cs "DEFAULT"

structure ExtractStats where
  totalStrings : Nat
  uniqueStrings : Nat
  byCategory : List (List Char × Nat)
deriving Repr

structure ExtractValidation where
  isComplete : Bool
  errors : List (List Char)
  warnings : List (List Char)
deriving Repr

/-- The result of MizParser.extractText; `result.extracted`'s six category
properties are the `Option (List Item)` fields (a `none` field models a
property that was never assigned). -/
structure ExtractResult where
  locale : List Char
  briefings : Option (List Item)
  triggers : Option (List Item)
  radio : Option (List Item)
  tasks : Option (List Item)
  units : Option (List Item)
  waypoints : Option (List Item)
  stats : ExtractStats
  validation : ExtractValidation
deriving Repr

/-- Count of distinct texts, as `new Set(texts).size`. -/
def distinctCount (texts : List (List Char)) : Nat :=
  (texts.foldl (fun seen t => if t ∈ seen then seen else seen ++ [t]) []).length

def requiredCategories : List (List Char) := [cs "briefings", cs "triggers", cs "radio"]

/-- MizParser.extractText. -/
def extractText (pd : ParsedData) (opts : ExtractOptions) : ExtractResult :=
  let sel := selectDictionary pd opts.preferredLocale
  let dictionary := sel.1
  let locale := sel.2
  let cats := if opts.mode = cs "auto" then requiredCategories else opts.categories
  let briefings := if (cs "briefings") ∈ cats then
      some (extractBriefings pd.mission dictionary) else none
  let triggers := if (cs "triggers") ∈ cats then
      some (extractTriggers pd.mission dictionary) else none
  let radio := if (cs "radio") ∈ cats then
      let mapRes := match aget pd.mapResources locale with
        | some v => if jsTruthy v then some v else aget pd.mapResources (cs "DEFAULT")
        | none => aget pd.mapResources (cs "DEFAULT")
      some (extractRadioMessages pd.mission dictionary mapRes)
    else none
  let tasks := if (cs "tasks") ∈ cats then
      some (extractTasks pd.mission dictionary) else none
  let units := if (cs "units") ∈ cats then
      some (extractUnits pd.mission dictionary) else none
  let waypoints := if (cs "waypoints") ∈ cats then
      some (extractWaypoints pd.mission dictionary) else none
  let byCategory :=
    (match briefings with | some l => [(cs "briefings", l.length)] | none => []) ++
    (match triggers with | some l => [(cs "triggers", l.length)] | none => []) ++
    (match radio with | some l => [(cs "radio", l.length)] | none => []) ++
    (match tasks with | some l => [(cs "tasks", l.length)] | none => []) ++
    (match units with | some l => [(cs "units", l.length)] | none => []) ++
    (match waypoints with | some l => [(cs "waypoints", l.length)] | none => [])
  let allStrings :=
    (briefings.getD []) ++ (triggers.getD []) ++ (radio.getD []) ++
    (tasks.getD []) ++ (units.getD []) ++ (waypoints.getD [])
  let present := fun (o : Option (List Item)) => match o with
    | some _ => true | none => false
  let missing := requiredCategories.filter (fun c =>
    !(if c = cs "briefings" then present briefings
      else if c = cs "triggers" then present triggers
      else present radio))
  let emptyCat := fun (o : Option (List Item)) => match o with
    | some l => l.isEmpty
    | none => false
  let empty := requiredCategories.filter (fun c =>
    if c = cs "briefings" then emptyCat briefings
    else if c = cs "triggers" then emptyCat triggers
    else emptyCat radio)
  { locale := locale
    briefings := briefings
    triggers := triggers
    radio := radio
    tasks := tasks
    units := units
    waypoints := waypoints
    stats := { totalStrings := allStrings.length
               uniqueStrings := distinctCount (allStrings.map Item.text)
               byCategory := byCategory }
    validation :=
      { isComplete :=
          (match briefings with | some l => !l.isEmpty | none => false) &&
          (match triggers with | some l => !l.isEmpty | none => false) &&
          (match radio with | some l => !l.isEmpty | none => false)
        errors := if missing.isEmpty then []
          else [cs "Missing required categories: " ++ List.intercalate (cs ", ") missing]
        warnings := if empty.isEmpty then []
          else [cs "Empty required categories: " ++ List.intercalate (cs ", ") empty] } }

end MizParser

theorem addUnique_fold_inv (category dflt : List Char) :
    ∀ (cands : List (List Char × LVal)) (st : List (List Char) × List MizParser.Item),
      (∀ i ∈ st.2, i.text ∈ st.1) →
      List.Pairwise (fun a b : MizParser.Item => a.text ≠ b.text) st.2 →
      (∀ i ∈ (cands.foldl (MizParser.addUnique category dflt) st).2,
        i.text ∈ (cands.foldl (MizParser.addUnique category dflt) st).1) ∧
      List.Pairwise (fun a b : MizParser.Item => a.text ≠ b.text)
        (cands.foldl (MizParser.addUnique category dflt) st).2 := by
  intro cands
  induction cands with
  | nil => intro st h1 h2; exact ⟨h1, h2⟩
  | cons c rest ih =>
      intro st h1 h2
      rw [List.foldl_cons]
      have hstep : (∀ i ∈ (MizParser.addUnique category dflt st c).2,
          i.text ∈ (MizParser.addUnique category dflt st c).1) ∧
          List.Pairwise (fun a b : MizParser.Item => a.text ≠ b.text)
            (MizParser.addUnique category dflt st c).2 := by
        unfold MizParser.addUnique
        cases hc : MizParser.cleanText (some c.1) with
        | none => exact ⟨h1, h2⟩
        | some cl =>
            by_cases hm : cl ∈ st.1
            · simp only [hm, if_pos]
              exact ⟨h1, h2⟩
            · simp only [hm, if_neg, not_false_iff]
              constructor
              · intro i hi
                rcases List.mem_append.mp hi with hold | hnew
                · exact List.mem_append_left _ (h1 i hold)
                · simp at hnew
                  subst hnew
                  simp
              · rw [List.pairwise_append]
                refine ⟨h2, by simp, ?_⟩
                intro a ha b hb
                simp at hb
                subst hb
                simp only
                intro he
                exact hm (he ▸ h1 a ha)
      exact ih _ hstep.1 hstep.2

/-- The three-source trigger walk never produces two items with the same
text: the shared `seen` set deduplicates by cleaned text. -/
theorem extractTriggersWalk_nodupText (mission : LVal) (dictionary : JObj) :
    List.Pairwise (fun a b : MizParser.Item => a.text ≠ b.text)
      (MizParser.extractTriggersWalk mission dictionary) :=
  (addUnique_fold_inv _ _ _ ([], []) (by simp) (by simp)).2

/-- Claim C6 (counterexample): when all three trigger sources are empty, the
`DictKey_ActionText_` dictionary scan supplies the items without any
deduplication, so two dictionary entries with the same text yield two items
with equal text. -/
theorem claim_C6_counterexample :
    ((MizParser.extractTriggers LVal.nil
        [(JKey.str (cs "DictKey_ActionText_1"), LVal.str (cs "Hello")),
         (JKey.str (cs "DictKey_ActionText_2"), LVal.str (cs "Hello"))]).map
      MizParser.Item.text = [cs "Hello", cs "Hello"]) ∧
    ¬ List.Pairwise (fun a b : MizParser.Item => a.text ≠ b.text)
      (MizParser.extractTriggers LVal.nil
        [(JKey.str (cs "DictKey_ActionText_1"), LVal.str (cs "Hello")),
         (JKey.str (cs "DictKey_ActionText_2"), LVal.str (cs "Hello"))]) := by
  constructor
  · rfl
  · intro h
    have h2 := h.map MizParser.Item.text (fun a b hab => hab)
    rw [show (MizParser.extractTriggers LVal.nil
        [(JKey.str (cs "DictKey_ActionText_1"), LVal.str (cs "Hello")),
         (JKey.str (cs "DictKey_ActionText_2"), LVal.str (cs "Hello"))]).map
      MizParser.Item.text = [cs "Hello", cs "Hello"] from rfl] at h2
    simp at h2

/-- Claim C6 (amended): deduplication keyed on cleaned text applies across
the three trigger-walk sources (modern `triggers.triggers`, legacy
`trig.actions`, old `trigrules`) within one call — no two walk items carry
equal text, and whenever the walk is non-empty it is the entire result of
`extractTriggers`.  The `DictKey_ActionText_` dictionary-scan fallback,
which runs only when the walk found nothing, does not deduplicate. -/
theorem claim_C6_amended :
    (∀ (mission : LVal) (dictionary : JObj),
      List.Pairwise (fun a b : MizParser.Item => a.text ≠ b.text)
        (MizParser.extractTriggersWalk mission dictionary)) ∧
    (∀ (mission : LVal) (dictionary : JObj),
      MizParser.extractTriggersWalk mission dictionary ≠ [] →
      MizParser.extractTriggers mission dictionary =
        MizParser.extractTriggersWalk mission dictionary) := by
  refine ⟨extractTriggersWalk_nodupText, ?_⟩
  intro mission dictionary h
  unfold MizParser.extractTriggers
  rw [if_neg]
  simpa [List.isEmpty_iff] using h

/-- A mission whose modern trigger list contains one `outText` action. -/
def trigWitnessMission : LVal :=
  LVal.obj [(JKey.str (cs "triggers"),
    LVal.obj [(JKey.str (cs "triggers"),
      LVal.arr [LVal.obj [(JKey.str (cs "actions"),
        LVal.arr [LVal.str (cs "a = outText(\"Hi there\", 5)")])]])])]

/-- Claim C6 (witness): the fallback is bypassed on a mission with a real
`outText` trigger. -/
theorem claim_C6_witness :
    MizParser.extractTriggers trigWitnessMission [] =
      MizParser.extractTriggersWalk trigWitnessMission [] :=
  claim_C6_amended.2 trigWitnessMission []
    (fun h => absurd (congrArg List.length h) (by decide))

/-- First-of of two options, the explicit form of JS `a || b` fallback on
dictionary lookups. -/
def oOr (a b : Option LVal) : Option LVal :=
  match a with
  | some v => some v
  | none => b

theorem oOr_none_right (a : Option LVal) : oOr a none = a := by
  cases a <;> rfl

/-- Last-write-wins lookup: the value key `k` holds after the entries of `o`
are written in order by `jset`. -/
def lookLast (o : JObj) (k : JKey) : Option LVal :=
  (o.reverse.find? (fun e => e.1 = k)).map (fun e => e.2)

theorem jget_nil (k : JKey) : jget [] k = none := rfl

theorem jget_cons (e : JKey × LVal) (t : JObj) (k : JKey) :
    jget (e :: t) k = if e.1 = k then some e.2 else jget t k := by
  unfold jget
  by_cases h : e.1 = k
  · rw [List.find?_cons_of_pos _ (by simpa using h), if_pos h]
    rfl
  · rw [List.find?_cons_of_neg _ (by simpa using h), if_neg h]

theorem jget_append (l1 l2 : JObj) (k : JKey) :
    jget (l1 ++ l2) k = oOr (jget l1 k) (jget l2 k) := by
  induction l1 with
  | nil => rw [List.nil_append, jget_nil]; rfl
  | cons e t ih =>
      rw [List.cons_append, jget_cons, jget_cons, ih]
      by_cases h : e.1 = k
      · rw [if_pos h, if_pos h]; rfl
      · rw [if_neg h, if_neg h]

theorem find?_append_pair (p : JKey × LVal → Bool) (l1 l2 : List (JKey × LVal)) :
    (l1 ++ l2).find? p = match l1.find? p with
      | some e => some e
      | none => l2.find? p := by
  induction l1 with
  | nil => simp
  | cons e t ih =>
      by_cases hp : p e
      · rw [List.cons_append, List.find?_cons_of_pos _ hp,
          List.find?_cons_of_pos _ hp]
      · rw [List.cons_append, List.find?_cons_of_neg _ hp,
          List.find?_cons_of_neg _ hp, ih]

theorem lookLast_cons (e : JKey × LVal) (l : JObj) (k : JKey) :
    lookLast (e :: l) k =
      oOr (lookLast l k) (if e.1 = k then some e.2 else none) := by
  unfold lookLast
  rw [List.reverse_cons, find?_append_pair]
  cases hf : l.reverse.find? (fun e => e.1 = k) with
  | some f => rfl
  | none =>
      by_cases h : e.1 = k
      · rw [List.find?_cons_of_pos _ (by simpa using h), if_pos h]
        rfl
      · rw [List.find?_cons_of_neg _ (by simpa using h), if_neg h]
        rfl

theorem bnot_eq_true {b : Bool} (h : ¬(b = true)) : b = false := by
  cases b
  · rfl
  · exact absurd rfl h

theorem jget_map_update (o : JObj) (k kq : JKey) (v : LVal) :
    jget (o.map (fun e => if e.1 = k then (k, v) else e)) kq =
      if kq = k then (if o.any (fun e => e.1 = k) then some v else none)
      else jget o kq := by
  induction o with
  | nil =>
      rw [List.map_nil]
      by_cases h : kq = k
      · simp [jget_nil, h]
      · simp [jget_nil, h]
  | cons e t ih =>
      by_cases hek : e.1 = k
      · by_cases hk : kq = k
        · subst hk
          simp [jget_cons, List.any_cons, hek, ih]
        · simp [jget_cons, List.any_cons, hek, hk, Ne.symm hk, ih]
      · by_cases hk : kq = k
        · subst hk
          have hd : (decide (e.1 = kq)) = false := by simpa using hek
          simp [jget_cons, List.any_cons, hek, ih]
          rw [hd, Bool.false_or]
        · simp [jget_cons, List.any_cons, hek, hk, ih]

theorem jget_none_of_any_false (o : JObj) (k : JKey)
    (h : o.any (fun e => e.1 = k) = false) : jget o k = none := by
  have h2 : o.find? (fun e => e.1 = k) = none := by
    rw [List.find?_eq_none]
    intro x hx
    rw [List.any_eq_false] at h
    exact h x hx
  unfold jget
  rw [h2]
  rfl

/-- Reading back after a property write: the written key now holds the
value, every other key reads as before. -/
theorem jget_jset (o : JObj) (k kq : JKey) (v : LVal) :
    jget (jset o k v) kq = if kq = k then some v else jget o kq := by
  unfold jset
  by_cases hany : o.any (fun e => e.1 = k)
  · rw [if_pos hany, jget_map_update, hany]
    by_cases hk : kq = k
    · rw [if_pos hk, if_pos hk]
      rfl
    · rw [if_neg hk, if_neg hk]
  · rw [if_neg hany, jget_append, jget_cons, jget_nil]
    by_cases hk : kq = k
    · subst hk
      rw [if_pos rfl, jget_none_of_any_false o kq (bnot_eq_true hany), if_pos rfl]
      rfl
    · rw [if_neg hk, if_neg (fun hx => hk hx.symm), oOr_none_right]

/-- Reading a key out of a fold of property writes: the last write of that
key wins, else the base object's value shows through. -/
theorem jget_foldl_jset (l : List (JKey × LVal)) :
    ∀ (t : JObj) (k : JKey),
      jget (l.foldl (fun t e => jset t e.1 e.2) t) k =
        oOr (lookLast l k) (jget t k) := by
  induction l with
  | nil => intro t k; rfl
  | cons e rest ih =>
      intro t k
      rw [List.foldl_cons, ih, lookLast_cons, jget_jset]
      cases hA : lookLast rest k with
      | some a => rfl
      | none =>
          by_cases hk : k = e.1
          · rw [if_pos hk, if_pos hk.symm]
            rfl
          · rw [if_neg hk, if_neg (fun h => hk h.symm)]
            rfl

theorem insSortedNat_perm {α : Type} (e : Nat × α) (l : List (Nat × α)) :
    List.Perm (insSortedNat e l) (e :: l) := by
  induction l with
  | nil => exact List.Perm.refl _
  | cons f rest ih =>
      unfold insSortedNat
      by_cases h : e.1 ≤ f.1
      · rw [if_pos h]
      · rw [if_neg h]
        exact List.Perm.trans (List.Perm.cons f ih) (List.Perm.swap e f rest)

theorem sortNat_perm {α : Type} (l : List (Nat × α)) :
    List.Perm (sortNat l) l := by
  induction l with
  | nil => exact List.Perm.refl _
  | cons e rest ih =>
      unfold sortNat
      rw [List.foldr_cons]
      exact List.Perm.trans (insSortedNat_perm e _) (List.Perm.cons e ih)

theorem natPart_map_back (o : JObj) :
    (o.filterMap (fun e => match e.1 with
        | .nat n => some (n, e.2) | .str _ => none)).map
      (fun e => (JKey.nat e.1, e.2)) =
    o.filter (fun e => match e.1 with | .nat _ => true | .str _ => false) := by
  induction o with
  | nil => rfl
  | cons e t ih =>
      cases e with
      | mk k v =>
          cases k with
          | nat n => simp [List.filterMap_cons, List.filter_cons, ih]
          | str s => simp [List.filterMap_cons, List.filter_cons, ih]

/-- The `Object.entries` view is a permutation of the stored entries. -/
theorem jsEntries_perm (o : JObj) : List.Perm (jsEntries o) o := by
  unfold jsEntries
  apply List.Perm.trans
    (List.Perm.append_right _ (List.Perm.map _ (sortNat_perm _)))
  rw [natPart_map_back]
  have hc : o.filter (fun e => match e.1 with | .nat _ => false | .str _ => true) =
      o.filter (fun e => !(match e.1 with | .nat _ => true | .str _ => false)) := by
    apply List.filter_congr
    intro e he
    cases e.1 <;> rfl
  rw [hc]
  exact List.filter_append_perm _ o

theorem mem_jsEntries_iff {o : JObj} {e : JKey × LVal} :
    e ∈ jsEntries o ↔ e ∈ o := (jsEntries_perm o).mem_iff

theorem keys_jsEntries_perm (o : JObj) :
    List.Perm ((jsEntries o).map Prod.fst) (o.map Prod.fst) :=
  (jsEntries_perm o).map Prod.fst

theorem mem_of_jget_eq_some {o : JObj} {k : JKey} {v : LVal}
    (h : jget o k = some v) : (k, v) ∈ o := by
  unfold jget at h
  cases hf : o.find? (fun e => e.1 = k) with
  | none => rw [hf] at h; cases h
  | some f =>
      rw [hf] at h
      have hp := List.find?_some hf
      have hmem := List.mem_of_find?_eq_some hf
      have hk : f.1 = k := by simpa using hp
      have hv : f.2 = v := by simpa using h
      have hfe : f = (k, v) := by
        cases f
        simp_all
      rw [hfe] at hmem
      exact hmem

theorem jget_eq_none_iff {o : JObj} {k : JKey} :
    jget o k = none ↔ k ∉ o.map Prod.fst := by
  constructor
  · intro h hk
    rcases List.mem_map.mp hk with ⟨e, he, hek⟩
    unfold jget at h
    cases hf : o.find? (fun e => e.1 = k) with
    | some f => rw [hf] at h; cases h
    | none =>
        rw [List.find?_eq_none] at hf
        exact hf e he (by simpa using hek)
  · intro hk
    unfold jget
    cases hf : o.find? (fun e => e.1 = k) with
    | some f =>
        exfalso
        apply hk
        rw [List.mem_map]
        exact ⟨f, List.mem_of_find?_eq_some hf, by simpa using List.find?_some hf⟩
    | none => rfl

theorem jget_eq_some_of_mem {o : JObj} {k : JKey} {v : LVal}
    (hnd : (o.map Prod.fst).Nodup) (hm : (k, v) ∈ o) : jget o k = some v := by
  induction o with
  | nil => cases hm
  | cons e t ih =>
      rw [List.map_cons, List.nodup_cons] at hnd
      rw [jget_cons]
      rcases List.mem_cons.mp hm with h1 | h2
      · rw [← h1]
        simp
      · have hk : k ∈ t.map Prod.fst := List.mem_map_of_mem Prod.fst h2
        rw [if_neg (fun hek => hnd.1 (by rw [hek]; exact hk))]
        exact ih hnd.2 h2

theorem lookLast_mem_of_eq_some {o : JObj} {k : JKey} {v : LVal}
    (h : lookLast o k = some v) : (k, v) ∈ o := by
  unfold lookLast at h
  cases hf : o.reverse.find? (fun e => e.1 = k) with
  | none => rw [hf] at h; cases h
  | some f =>
      rw [hf] at h
      have hk : f.1 = k := by simpa using List.find?_some hf
      have hv : f.2 = v := by simpa using h
      have hmem := List.mem_of_find?_eq_some hf
      rw [List.mem_reverse] at hmem
      have hfe : f = (k, v) := by
        cases f
        simp_all
      rw [hfe] at hmem
      exact hmem

theorem lookLast_eq_jget_of_nodup {o : JObj} (k : JKey)
    (hnd : (o.map Prod.fst).Nodup) : lookLast o k = jget o k := by
  induction o with
  | nil => rfl
  | cons e t ih =>
      rw [List.map_cons, List.nodup_cons] at hnd
      rw [lookLast_cons, jget_cons, ih hnd.2]
      by_cases hek : e.1 = k
      · rw [if_pos hek, if_pos hek]
        have hn : jget t k = none := by
          rw [jget_eq_none_iff, ← hek]
          exact hnd.1
        rw [hn]
        rfl
      · rw [if_neg hek, if_neg hek, oOr_none_right]

theorem keys_jset (o : JObj) (k : JKey) (v : LVal) :
    (jset o k v).map Prod.fst =
      if o.any (fun e => e.1 = k) then o.map Prod.fst
      else o.map Prod.fst ++ [k] := by
  unfold jset
  by_cases hany : o.any (fun e => e.1 = k)
  · rw [if_pos hany, if_pos hany, List.map_map]
    apply List.map_congr_left
    intro e he
    by_cases hek : e.1 = k
    · simp [hek]
    · simp [hek]
  · rw [if_neg hany, if_neg hany, List.map_append]
    rfl

theorem nodup_keys_jset {o : JObj} (k : JKey) (v : LVal)
    (hnd : (o.map Prod.fst).Nodup) : ((jset o k v).map Prod.fst).Nodup := by
  rw [keys_jset]
  by_cases hany : o.any (fun e => e.1 = k)
  · rw [if_pos hany]
    exact hnd
  · rw [if_neg hany]
    apply List.Nodup.append hnd (List.nodup_singleton k)
    intro a ha hb
    rw [List.mem_singleton] at hb
    subst hb
    have hn : jget o a = none := jget_none_of_any_false o a (bnot_eq_true hany)
    rw [jget_eq_none_iff] at hn
    exact hn ha

theorem nodup_keys_foldl_jset (l : List (JKey × LVal)) :
    ∀ (t : JObj), (t.map Prod.fst).Nodup →
      ((l.foldl (fun t e => jset t e.1 e.2) t).map Prod.fst).Nodup := by
  induction l with
  | nil => intro t h; exact h
  | cons e rest ih =>
      intro t h
      rw [List.foldl_cons]
      exact ih _ (nodup_keys_jset _ _ h)

/-- Key-uniqueness survives an `Object.assign` copy. -/
theorem nodup_keys_jAssign (t src : JObj)
    (h : (t.map Prod.fst).Nodup) : ((MizParser.jAssign t src).map Prod.fst).Nodup :=
  nodup_keys_foldl_jset _ t h

/-- `Object.assign(target, src)` read-back: a key of `src` (stored without
duplicates) reads its `src` value, any other key falls through to `target`. -/
theorem jget_jAssign (t src : JObj) (hs : (src.map Prod.fst).Nodup) (k : JKey) :
    jget (MizParser.jAssign t src) k = oOr (jget src k) (jget t k) := by
  unfold MizParser.jAssign
  rw [jget_foldl_jset]
  congr 1
  have hnd : ((jsEntries src).map Prod.fst).Nodup :=
    ((keys_jsEntries_perm src).nodup_iff).mpr hs
  rw [lookLast_eq_jget_of_nodup k hnd]
  cases hsk : jget src k with
  | some v =>
      exact jget_eq_some_of_mem hnd (mem_jsEntries_iff.mpr (mem_of_jget_eq_some hsk))
  | none =>
      rw [jget_eq_none_iff] at hsk ⊢
      intro hk
      exact hsk (((keys_jsEntries_perm src).mem_iff).mp hk)

/-- The dictionary object stored for a locale, as extractText reads it:
`parsedData.dictionaries[locale] || \x7b\x7d`, coerced to its entries. -/
def localeDictOf (pd : MizParser.ParsedData) (loc : List Char) : JObj :=
  toObj ((MizParser.aget pd.dictionaries loc).getD (.obj []))

theorem selectDictionary_unfold (pd : MizParser.ParsedData) (loc : List Char) :
    MizParser.selectDictionary pd loc =
      (if loc ≠ cs "DEFAULT" ∧ ¬(localeDictOf pd loc).isEmpty then
        (MizParser.jAssign (MizParser.jAssign [] (localeDictOf pd (cs "DEFAULT")))
          (localeDictOf pd loc), loc)
      else if ¬(localeDictOf pd (cs "DEFAULT")).isEmpty then
        (MizParser.jAssign [] (localeDictOf pd (cs "DEFAULT")), cs "DEFAULT")
      else match pd.availableLocales.head? with
        | some first => (localeDictOf pd first, first)
        | none => (MizParser.jAssign [] (localeDictOf pd (cs "DEFAULT")), loc)) :=
  rfl

/-- In the overlay branch the merged dictionary is DEFAULT's entries
assigned onto an empty object, then the locale's entries on top. -/
theorem selectDictionary_overlay (pd : MizParser.ParsedData) (loc : List Char)
    (h1 : loc ≠ cs "DEFAULT") (h2 : (localeDictOf pd loc).isEmpty = false) :
    MizParser.selectDictionary pd loc =
      (MizParser.jAssign (MizParser.jAssign [] (localeDictOf pd (cs "DEFAULT")))
        (localeDictOf pd loc), loc) := by
  rw [selectDictionary_unfold, if_pos]
  exact ⟨h1, fun hx => by rw [h2] at hx; cases hx⟩

/-- Per-key read of the merged dictionary: locale value first, DEFAULT as
fallback (key-uniqueness of each stored dictionary assumed). -/
theorem selectDictionary_read (pd : MizParser.ParsedData) (loc : List Char)
    (k : JKey) (h1 : loc ≠ cs "DEFAULT")
    (h2 : (localeDictOf pd loc).isEmpty = false)
    (hnl : ((localeDictOf pd loc).map Prod.fst).Nodup)
    (hnd : ((localeDictOf pd (cs "DEFAULT")).map Prod.fst).Nodup) :
    jget (MizParser.selectDictionary pd loc).1 k =
      oOr (jget (localeDictOf pd loc) k)
        (jget (localeDictOf pd (cs "DEFAULT")) k) ∧
    (MizParser.selectDictionary pd loc).2 = loc := by
  rw [selectDictionary_overlay pd loc h1 h2]
  refine ⟨?_, rfl⟩
  rw [jget_jAssign _ _ hnl k, jget_jAssign _ _ hnd k, jget_nil, oOr_none_right]

/-- When both the preferred locale and DEFAULT are empty, the first
available locale's dictionary is taken whole. -/
theorem selectDictionary_fallback (pd : MizParser.ParsedData)
    (loc first : List Char) (rest : List (List Char))
    (hd : localeDictOf pd (cs "DEFAULT") = [])
    (hl : localeDictOf pd loc = [])
    (ha : pd.availableLocales = first :: rest) :
    MizParser.selectDictionary pd loc = (localeDictOf pd first, first) := by
  rw [selectDictionary_unfold, if_neg, if_neg, ha]
  · rfl
  · intro hx
    rw [hd] at hx
    exact hx rfl
  · intro hx
    exact hx.2 (by rw [hl]; rfl)

/-- Every item the dictionary scan emits comes from a stored entry: its
context is the key, its text the cleaned value. -/
theorem mem_extractFromDictionary {d : JObj} {prefixes : List (List Char)}
    {cat : List Char} {item : MizParser.Item}
    (h : item ∈ MizParser.extractFromDictionary d prefixes cat) :
    ∃ k v, (k, v) ∈ d ∧ item.category = cat ∧ item.context = .str (keyStr k) ∧
      MizParser.cleanTextJS v = some item.text := by
  unfold MizParser.extractFromDictionary at h
  suffices hgen : ∀ (l : List (JKey × LVal)) (acc : List MizParser.Item),
      item ∈ l.foldl (fun acc e =>
        if prefixes.any (fun p => p.isPrefixOf (keyStr e.1)) then
          match MizParser.cleanTextJS e.2 with
          | some text =>
              if MizParser.isSystemMessage (some text) (some (keyStr e.1)) then acc
              else acc ++ [⟨cat, .str (keyStr e.1), text⟩]
          | none => acc
        else acc) acc →
      item ∈ acc ∨ ∃ k v, (k, v) ∈ l ∧ item.category = cat ∧
        item.context = .str (keyStr k) ∧
        MizParser.cleanTextJS v = some item.text by
    rcases hgen (jsEntries d) [] h with h0 | ⟨k, v, hm, hrest⟩
    · cases h0
    · exact ⟨k, v, mem_jsEntries_iff.mp hm, hrest⟩
  intro l
  induction l with
  | nil =>
      intro acc h0
      exact Or.inl h0
  | cons e t ih =>
      intro acc h0
      rw [List.foldl_cons] at h0
      rcases ih _ h0 with h1 | ⟨k, v, hm, hrest⟩
      · by_cases hpre : prefixes.any (fun p => p.isPrefixOf (keyStr e.1))
        · rw [if_pos hpre] at h1
          cases hct : MizParser.cleanTextJS e.2 with
          | none =>
              rw [hct] at h1
              exact Or.inl h1
          | some text =>
              rw [hct] at h1
              have h1b : item ∈ (if MizParser.isSystemMessage (some text)
                  (some (keyStr e.1)) then acc
                else acc ++ [⟨cat, .str (keyStr e.1), text⟩]) := h1
              by_cases hsys : MizParser.isSystemMessage (some text) (some (keyStr e.1))
              · rw [if_pos hsys] at h1b
                exact Or.inl h1b
              · rw [if_neg hsys] at h1b
                rcases List.mem_append.mp h1b with h2 | h2
                · exact Or.inl h2
                · rw [List.mem_singleton] at h2
                  subst h2
                  refine Or.inr ⟨e.1, e.2, List.mem_cons_self e t, rfl, rfl, ?_⟩
                  rw [hct]
        · rw [if_neg hpre] at h1
          exact Or.inl h1
      · exact Or.inr ⟨k, v, List.mem_cons_of_mem e hm, hrest⟩

/-- A parsed archive whose RU dictionary retranslates a strict subset of the
DEFAULT keys with different text: DEFAULT has two action texts, RU replaces
the first by the bare number `100`. -/
def pdC2 : MizParser.ParsedData :=
  ⟨.obj [],
   [(cs "DEFAULT", .obj
      [(.str (cs "DictKey_ActionText_1"), .str (cs "Hello soldiers attack")),
       (.str (cs "DictKey_ActionText_2"), .str (cs "Second message here"))]),
    (cs "RU", .obj [(.str (cs "DictKey_ActionText_1"), .str (cs "100"))])],
   [], [cs "DEFAULT", cs "RU"]⟩

/-- Claim C2, refuted consequence: `pdC2`'s DEFAULT dictionary has two
entries and its RU dictionary retranslates a strict subset of them, yet
`extractText` reports different `stats.totalStrings` for the two locales:
the RU text `100` is dropped by the system-message filter after the merge,
so RU yields 1 string where DEFAULT yields 2. -/
theorem claim_C2_counterexample :
    (MizParser.extractText pdC2 ⟨cs "auto", [], cs "RU"⟩).stats.totalStrings = 1 ∧
    (MizParser.extractText pdC2 ⟨cs "auto", [], cs "DEFAULT"⟩).stats.totalStrings = 2 :=
  ⟨rfl, rfl⟩

/-- Claim C2, amended merge semantics.  (1) When the preferred locale is not
DEFAULT and its stored dictionary is non-empty, a key of the merged
dictionary reads the locale's value first and falls back to the DEFAULT
value, and the reported locale is the preferred one (key-uniqueness of the
stored dictionaries assumed).  (2) When both are empty the first available
locale's dictionary is used whole.  (3) Every item the dictionary scan
emits from such a merge carries the locale's value for its key when the
locale has that key, else the DEFAULT entry's value.  The claim's
`totalStrings` consequence is false: system-message filtering applies
after the merge, so a locale that retranslates a kept DEFAULT text into a
filtered one changes the count (see the counterexample). -/
theorem claim_C2_amended :
    (∀ (pd : MizParser.ParsedData) (loc : List Char) (k : JKey),
      loc ≠ cs "DEFAULT" →
      (localeDictOf pd loc).isEmpty = false →
      ((localeDictOf pd loc).map Prod.fst).Nodup →
      ((localeDictOf pd (cs "DEFAULT")).map Prod.fst).Nodup →
      jget (MizParser.selectDictionary pd loc).1 k =
        oOr (jget (localeDictOf pd loc) k)
          (jget (localeDictOf pd (cs "DEFAULT")) k) ∧
      (MizParser.selectDictionary pd loc).2 = loc) ∧
    (∀ (pd : MizParser.ParsedData) (loc first : List Char)
        (rest : List (List Char)),
      localeDictOf pd (cs "DEFAULT") = [] →
      localeDictOf pd loc = [] →
      pd.availableLocales = first :: rest →
      MizParser.selectDictionary pd loc = (localeDictOf pd first, first)) ∧
    (∀ (dDEF dRU : JObj) (prefixes : List (List Char)) (cat : List Char)
        (item : MizParser.Item),
      (dRU.map Prod.fst).Nodup →
      item ∈ MizParser.extractFromDictionary
        (MizParser.jAssign (MizParser.jAssign [] dDEF) dRU) prefixes cat →
      ∃ k v, item.context = .str (keyStr k) ∧
        MizParser.cleanTextJS v = some item.text ∧
        (jget dRU k = some v ∨ (jget dRU k = none ∧ (k, v) ∈ dDEF))) := by
  refine ⟨fun pd loc k h1 h2 hnl hnd => selectDictionary_read pd loc k h1 h2 hnl hnd,
    fun pd loc first rest hd hl ha => selectDictionary_fallback pd loc first rest hd hl ha,
    fun dDEF dRU prefixes cat item hnr hm => ?_⟩
  rcases mem_extractFromDictionary hm with ⟨k, v, hmem, hcat, hctx, hclean⟩
  have hnd1 : ((MizParser.jAssign [] dDEF).map Prod.fst).Nodup :=
    nodup_keys_jAssign [] dDEF List.nodup_nil
  have hnd2 : ((MizParser.jAssign (MizParser.jAssign [] dDEF) dRU).map Prod.fst).Nodup :=
    nodup_keys_jAssign _ dRU hnd1
  have hread : jget (MizParser.jAssign (MizParser.jAssign [] dDEF) dRU) k = some v :=
    jget_eq_some_of_mem hnd2 hmem
  rw [jget_jAssign _ _ hnr k] at hread
  refine ⟨k, v, hctx, hclean, ?_⟩
  cases hru : jget dRU k with
  | some w =>
      rw [hru] at hread
      cases hread
      exact Or.inl rfl
  | none =>
      rw [hru] at hread
      have hread2 : jget (MizParser.jAssign [] dDEF) k = some v := hread
      rw [MizParser.jAssign] at hread2
      rw [jget_foldl_jset] at hread2
      rw [jget_nil, oOr_none_right] at hread2
      exact Or.inr ⟨rfl, mem_jsEntries_iff.mp (lookLast_mem_of_eq_some hread2)⟩

/-- Witness for claim C2 at `pdC2`, preferred locale RU, key
`DictKey_ActionText_2`: the merged read falls back to the DEFAULT value. -/
theorem claim_C2_witness :
    jget (MizParser.selectDictionary pdC2 (cs "RU")).1
        (.str (cs "DictKey_ActionText_2")) =
      oOr (jget (localeDictOf pdC2 (cs "RU")) (.str (cs "DictKey_ActionText_2")))
        (jget (localeDictOf pdC2 (cs "DEFAULT"))
          (.str (cs "DictKey_ActionText_2"))) ∧
    (MizParser.selectDictionary pdC2 (cs "RU")).2 = cs "RU" :=
  claim_C2_amended.1 pdC2 (cs "RU") (.str (cs "DictKey_ActionText_2"))
    (by decide) (by decide) (by decide) (by decide)

/-- `importedText.split(chr 10)`: split at every newline, keeping empty
pieces. -/
def splitOnNl : List Char → List (List Char)
  | [] => [[]]
  | c :: rest =>
      if c = '\n' then [] :: splitOnNl rest
      else match splitOnNl rest with
        | [] => [[c]]
        | p :: ps => (c :: p) :: ps

/-- A capital Cyrillic letter, `[А-ЯЁ]` of the section-header pattern. -/
def isRuCap (c : Char) : Bool :=
  (0x410 ≤ c.toNat && c.toNat ≤ 0x42F) || c.toNat = 0x401

/-- A character of the section-header name class `[А-ЯЁA-Z\s]`. -/
def isSecChar (c : Char) : Bool :=
  isRuCap c || ('A' ≤ c && c ≤ 'Z') || isWsChar c

/-- A character of the English sub-name class `[A-Z\s]`. -/
def isEnSecChar (c : Char) : Bool := ('A' ≤ c && c ≤ 'Z') || isWsChar c

/-- A JS line terminator, the characters a bare `.` never matches. -/
def isLineTerm (c : Char) : Bool :=
  c = '\n' || c = '\r' || c.toNat = 0x2028 || c.toNat = 0x2029

namespace MizParser

/-- The anchored section-header pattern of parseImportedText, as the
deterministic scan it denotes: a non-empty run of `[А-ЯЁA-Z\s]`, a colon,
whitespace, and optionally `/`, an `[A-Z\s]+` run and a final colon; the
two name groups are returned raw (the JS engine cannot place the first
colon anywhere but after the maximal class run, since the class excludes
the colon, so no backtracking alternative exists). -/
def sectionHeadMatch (l : List Char) : Option (List Char × Option (List Char)) :=
  let p := l.takeWhile isSecChar
  let rest := l.drop p.length
  if p.isEmpty then none
  else match rest with
    | ':' :: r2 =>
        let r3 := r2.dropWhile isWsChar
        match r3 with
        | [] => some (p, none)
        | '/' :: r4 =>
            let g2 := r4.takeWhile isEnSecChar
            let r5 := r4.drop g2.length
            if g2.isEmpty then none
            else match r5 with
              | [':'] => some (p, some g2)
              | _ => none
        | _ => none
    | _ => none

/-- The per-line pattern of parseImportedText: a non-empty colon-free
prefix, a colon, optional whitespace, then the rest of the line, which the
dot-star-dollar tail accepts only when no line terminator remains in it. -/
def lineMatch (l : List Char) : Option (List Char × List Char) :=
  let p := l.takeWhile (fun c => c ≠ ':')
  let rest := l.drop p.length
  if p.isEmpty then none
  else match rest with
    | ':' :: r2 =>
        let text := r2.dropWhile isWsChar
        if text.any isLineTerm then none else some (p, text)
    | _ => none

/-- The section-name table of parseImportedText. -/
def sectionMap : List (List Char × List Char) :=
  [(cs "БРИФИНГ", cs "briefings"), (cs "BRIEFING", cs "briefings"),
   (cs "ТРИГГЕРЫ", cs "triggers"), (cs "TRIGGERS", cs "triggers"),
   (cs "РАДИОСООБЩЕНИЯ", cs "radio"), (cs "RADIO MESSAGES", cs "radio"),
   (cs "ЗАДАЧИ", cs "tasks"), (cs "TASKS", cs "tasks"),
   (cs "ПОДРАЗДЕЛЕНИЯ", cs "units"), (cs "UNITS", cs "units"),
   (cs "ПУТЕВЫЕ ТОЧКИ", cs "waypoints"), (cs "WAYPOINTS", cs "waypoints")]

def secLookup (n : Option (List Char)) : Option (List Char) :=
  match n with
  | none => none
  | some s => (sectionMap.find? (fun e => e.1 = s)).map (fun e => e.2)

/-- The `mappings.briefings` object built by parseImportedText; a `none`
field models a property never assigned. -/
structure ImpBriefings where
  sortie : Option (List Char) := none
  descriptionText : Option (List Char) := none
  descriptionBlueTask : Option (List Char) := none
  descriptionRedTask : Option (List Char) := none
  descriptionNeutralsTask : Option (List Char) := none
deriving Repr

/-- The `mappings` object parseImportedText returns. -/
structure ImportMappings where
  briefings : ImpBriefings := {}
  triggers : List (List Char) := []
  radio : List (List Char) := []
  tasks : List (List Char) := []
  units : List (List Char) := []
  waypoints : List (List Char) := []
  keyMappings : List (List Char × List Char) := []
deriving Repr

/-- String-keyed property write for `mappings.keyMappings`. -/
def sset (m : List (List Char × List Char)) (k v : List Char) :
    List (List Char × List Char) :=
  if m.any (fun e => e.1 = k) then m.map (fun e => if e.1 = k then (k, v) else e)
  else m ++ [(k, v)]

/-- The prefix-routing body of the parseImportedText loop, applied once a
line has produced a prefix and a non-empty cleaned text. -/
def routeLine (m : ImportMappings) (pre clean : List Char) : ImportMappings :=
  if (cs "DictKey_").isPrefixOf pre then
    let m1 := { m with keyMappings := sset m.keyMappings pre clean }
    if jsIncludes (cs "ActionText") pre || jsIncludes (cs "Trigger") pre then
      { m1 with triggers := m1.triggers ++ [clean] }
    else if jsIncludes (cs "Radio") pre || jsIncludes (cs "subtitle") pre then
      { m1 with radio := m1.radio ++ [clean] }
    else m1
  else if (cs "Briefing_Mission").isPrefixOf pre then
    { m with briefings := { m.briefings with sortie := some clean } }
  else if (cs "Briefing_Description").isPrefixOf pre then
    { m with briefings := { m.briefings with descriptionText := some clean } }
  else if (cs "Briefing_Blue").isPrefixOf pre then
    { m with briefings := { m.briefings with descriptionBlueTask := some clean } }
  else if (cs "Briefing_Red").isPrefixOf pre then
    { m with briefings := { m.briefings with descriptionRedTask := some clean } }
  else if (cs "Briefing_Neutral").isPrefixOf pre then
    { m with briefings := { m.briefings with descriptionNeutralsTask := some clean } }
  else if (cs "Trigger_Message_").isPrefixOf pre || (cs "Trigger_").isPrefixOf pre
      || (cs "[TRIGGER_").isPrefixOf pre || pre = cs "[TRIGGER]" then
    { m with triggers := m.triggers ++ [clean] }
  else if (cs "Radio_Message_").isPrefixOf pre || (cs "Radio_").isPrefixOf pre
      || (cs "[RADIO_").isPrefixOf pre || pre = cs "[RADIO]" then
    { m with radio := m.radio ++ [clean] }
  else if (cs "Task_").isPrefixOf pre || (cs "[TASK_").isPrefixOf pre
      || pre = cs "[TASK]" then
    { m with tasks := m.tasks ++ [clean] }
  else if (cs "Unit_").isPrefixOf pre || (cs "[UNIT_").isPrefixOf pre
      || pre = cs "[UNIT]" then
    { m with units := m.units ++ [clean] }
  else if (cs "Waypoint_").isPrefixOf pre || (cs "[WAYPOINT_").isPrefixOf pre
      || pre = cs "[WAYPOINT]" then
    { m with waypoints := m.waypoints ++ [clean] }
  else m

/-- The loop state of parseImportedText: the mappings under construction
and `currentSection` (written in the header branch, never read; the
`sectionMap` lookup is modelled as a plain table lookup). -/
structure ImpState where
  m : ImportMappings
  currentSection : Option (List Char)

/-- The header branch's new `currentSection`:
`sectionMap[name] || sectionMap[nameEn] || null`. -/
def newSection (g : List Char × Option (List Char)) : Option (List Char) :=
  match secLookup (some (jsTrim g.1)) with
  | some sec => some sec
  | none =>
      match secLookup (g.2.map jsTrim) with
      | some sec => some sec
      | none => none

/-- The mappings effect of one non-header line: match the line pattern,
trim the text, and route a non-empty result by its prefix. -/
def stepM (m : ImportMappings) (t : List Char) : ImportMappings :=
  match lineMatch t with
  | none => m
  | some pt =>
      let clean := jsTrim pt.2
      if clean.isEmpty then m
      else routeLine m pt.1 clean

/-- One iteration of the parseImportedText line loop. -/
def stepLine (st : ImpState) (line : List Char) : ImpState :=
  let t := jsTrim line
  if t.isEmpty then st
  else match sectionHeadMatch t with
    | some g => ⟨st.m, newSection g⟩
    | none => ⟨stepM st.m t, st.currentSection⟩

/-- MizParser.parseImportedText: split the text into lines and fold the
line loop from empty mappings and no current section. -/
def parseImportedText (importedText : List Char) : ImportMappings :=
  ((splitOnNl importedText).foldl stepLine ⟨{}, none⟩).m

/-- A line parseImportedText treats as a section header: non-blank after
trimming and matching the header pattern. -/
def isSectionHeaderLine (line : List Char) : Bool :=
  !(jsTrim line).isEmpty && (sectionHeadMatch (jsTrim line)).isSome

end MizParser

theorem bnot_true_eq_false {b : Bool} (h : (!b) = true) : b = false := by
  cases b
  · rfl
  · exact Bool.noConfusion h

theorem stepLine_m_congr (st1 st2 : MizParser.ImpState) (l : List Char)
    (h : st1.m = st2.m) :
    (MizParser.stepLine st1 l).m = (MizParser.stepLine st2 l).m := by
  simp only [MizParser.stepLine]
  by_cases ht : (jsTrim l).isEmpty
  · rw [if_pos ht, if_pos ht]
    exact h
  · rw [if_neg ht, if_neg ht]
    cases hm : MizParser.sectionHeadMatch (jsTrim l) with
    | some g => exact h
    | none => exact congrArg (fun m => MizParser.stepM m (jsTrim l)) h

theorem stepLine_header (st : MizParser.ImpState) (l : List Char)
    (hh : MizParser.isSectionHeaderLine l = true) :
    (MizParser.stepLine st l).m = st.m := by
  unfold MizParser.isSectionHeaderLine at hh
  rw [Bool.and_eq_true] at hh
  rcases Option.isSome_iff_exists.mp hh.2 with ⟨g, hg⟩
  have hne : ¬((jsTrim l).isEmpty = true) := fun hx => by
    rw [bnot_true_eq_false hh.1] at hx
    exact Bool.noConfusion hx
  simp only [MizParser.stepLine]
  rw [if_neg hne, hg]

/-- The line loop's mappings are blind to `currentSection`: folding over
only the non-header lines from any state with the same mappings yields the
same mappings as folding over all lines. -/
theorem foldl_stepLine_filter (ls : List (List Char)) :
    ∀ (st1 st2 : MizParser.ImpState), st1.m = st2.m →
      ((ls.filter (fun l => !MizParser.isSectionHeaderLine l)).foldl
          MizParser.stepLine st1).m =
        (ls.foldl MizParser.stepLine st2).m := by
  induction ls with
  | nil =>
      intro st1 st2 h
      exact h
  | cons l rest ih =>
      intro st1 st2 h
      rw [List.foldl_cons, List.filter_cons]
      by_cases hh : MizParser.isSectionHeaderLine l
      · have hfc : ¬((!MizParser.isSectionHeaderLine l) = true) := fun hx => by
          rw [hh] at hx
          exact Bool.noConfusion hx
        rw [if_neg hfc]
        exact ih st1 (MizParser.stepLine st2 l) (h.trans (stepLine_header st2 l hh).symm)
      · have hfc : (!MizParser.isSectionHeaderLine l) = true := by
          rw [bnot_eq_true hh]
          rfl
        rw [if_pos hfc, List.foldl_cons]
        exact ih _ _ (stepLine_m_congr st1 st2 l h)

/-- Claim C9: section headers have no effect on import parsing — the
mappings parseImportedText returns for a text equal the fold of the line
loop over only its non-header lines, so each line is routed by its own
label prefix and never by the section it appears under. -/
theorem claim_C9 (s : List Char) :
    MizParser.parseImportedText s =
      (((splitOnNl s).filter (fun l => !MizParser.isSectionHeaderLine l)).foldl
        MizParser.stepLine ⟨{}, none⟩).m :=
  (foldl_stepLine_filter (splitOnNl s) ⟨{}, none⟩ ⟨{}, none⟩ rfl).symm

namespace MizParser

/-- One single-character global replace, a pass of the escapeLua chain. -/
def replChar (a : Char) (sub : List Char) (s : List Char) : List Char :=
  (s.map (fun c => if c = a then sub else [c])).flatten

/-- The escapeLua helper of the import path: four sequential global
replaces — double the backslashes, then escape double quotes, newlines and
tabs. -/
def escapeLua (s : List Char) : List Char :=
  replChar '\t' [bslash, 't']
    (replChar '\n' [bslash, 'n']
      (replChar '"' [bslash, '"'] (replChar bslash [bslash, bslash] s)))

/-- The greedy value scan of the quoted-value groups: any run of
non-quote, non-backslash characters or backslash-escape pairs, stopping at
a quote, at a lone final backslash or at a backslash before a line
terminator (the dot of the escape pair never matches one).  Returns the
consumed value and the unconsumed rest; the regex backtracks only into
failure, so the enclosing match succeeds exactly when the rest starts with
a quote. -/
def valueScan : List Char → (List Char × List Char)
  | [] => ([], [])
  | [c] =>
      if c = bslash then ([], [bslash])
      else if isQuoteChar c then ([], [c])
      else ([c], [])
  | c :: d :: rest2 =>
      if c = bslash then
        (if isLineTerm d then ([], c :: d :: rest2)
         else
           let p := valueScan rest2
           (c :: d :: p.1, p.2))
      else if isQuoteChar c then ([], c :: d :: rest2)
      else
        let p := valueScan (d :: rest2)
        (c :: p.1, p.2)

/-- The dictionary entry pattern of generateDictionaryPreservingFormat,
anchored at the current position.  Both quote classes accept either quote
kind, so an entry may open with one and close with the other.  Returns the
prefix group, the key and the value group; the matched span is the next
`g1.length + value.length + 2` characters of the input. -/
def entryMatchAt (s : List Char) : Option (List Char × List Char × List Char) :=
  match s with
  | '[' :: q1 :: r2 =>
      if isQuoteChar q1 then
        let key := r2.takeWhile (fun c => !isQuoteChar c)
        if key.isEmpty then none
        else match r2.drop key.length with
          | q2 :: ']' :: r4 =>
              if isQuoteChar q2 then
                let ws1 := r4.takeWhile isWsChar
                match r4.drop ws1.length with
                | '=' :: r5 =>
                    let ws2 := r5.takeWhile isWsChar
                    match r5.drop ws2.length with
                    | q3 :: r6 =>
                        if isQuoteChar q3 then
                          match valueScan r6 with
                          | (value, q4 :: _) =>
                              if isQuoteChar q4 then
                                some ('[' :: q1 :: key ++ q2 :: ']' :: ws1
                                  ++ '=' :: ws2, key, value)
                              else none
                          | (_, []) => none
                        else none
                    | _ => none
                | _ => none
              else none
          | _ => none
      else none
  | _ => none

/-- The own-string-key lookup on a plain-object association list. -/
def slook (m : List (List Char × List Char)) (k : List Char) :
    Option (List Char) :=
  (m.find? (fun e => e.1 = k)).map (fun e => e.2)

/-- The enumerable keys `Object.prototype` contributes to a truthiness
test `obj[key]` on a plain object that lacks the key: each holds an
inherited function, which is truthy. -/
def OBJECT_PROTO_KEYS : List (List Char) :=
  [cs "constructor", cs "hasOwnProperty", cs "isPrototypeOf",
   cs "propertyIsEnumerable", cs "toLocaleString", cs "toString",
   cs "valueOf", cs "__defineGetter__", cs "__defineSetter__",
   cs "__lookupGetter__", cs "__lookupSetter__", cs "__proto__"]

/-- Truthiness of `translations[key]`: a stored non-empty string, or an
inherited `Object.prototype` method when the key is absent. -/
def transTruthy (tr : List (List Char × List Char)) (k : List Char) : Bool :=
  match slook tr k with
  | some v => !v.isEmpty
  | none => OBJECT_PROTO_KEYS.any (fun p => p = k)

/-- The string value `translations[key]` stringifies to: the stored
string, or — for an inherited method — the engine-dependent source text
`protoText key`. -/
def transValue (protoText : List Char → List Char)
    (tr : List (List Char × List Char)) (k : List Char) : List Char :=
  match slook tr k with
  | some v => v
  | none => protoText k

/-- The briefing-to-dictionary key table of
generateDictionaryPreservingFormat. -/
def briefingKeyMap : List (List Char × List Char) :=
  [(cs "sortie", cs "DictKey_sortie"),
   (cs "descriptionText", cs "DictKey_descriptionText"),
   (cs "descriptionBlueTask", cs "DictKey_descriptionBlueTask"),
   (cs "descriptionRedTask", cs "DictKey_descriptionRedTask"),
   (cs "descriptionNeutralsTask", cs "DictKey_descriptionNeutralsTask")]

/-- One briefing entry's contribution to the translations object: when the
value is a non-empty string and the raw text contains the bracketed key in
either quote style, write it. -/
def addBriefTrans (raw : List Char) (tr : List (List Char × List Char))
    (key : List Char) (value : Option (List Char)) :
    List (List Char × List Char) :=
  match value with
  | none => tr
  | some v =>
      if v.isEmpty then tr
      else
        let dictKey := match slook briefingKeyMap key with
          | some d => d
          | none => cs "DictKey_" ++ key
        if jsIncludes (cs "[\"" ++ dictKey ++ cs "\"]") raw
            || jsIncludes (cs "[" ++ squote :: dictKey ++ squote :: cs "]") raw then
          sset tr dictKey v
        else tr

/-- The translations object of generateDictionaryPreservingFormat: the
imported keyMappings, then the briefing fields.  (The five briefing slots
write pairwise-distinct dictionary keys, so the JS object's insertion
order is immaterial; they are folded in property-slot order.) -/
def buildTranslations (raw : List Char) (mp : ImportMappings) :
    List (List Char × List Char) :=
  let t0 := mp.keyMappings
  let t1 := addBriefTrans raw t0 (cs "sortie") mp.briefings.sortie
  let t2 := addBriefTrans raw t1 (cs "descriptionText") mp.briefings.descriptionText
  let t3 := addBriefTrans raw t2 (cs "descriptionBlueTask")
    mp.briefings.descriptionBlueTask
  let t4 := addBriefTrans raw t3 (cs "descriptionRedTask")
    mp.briefings.descriptionRedTask
  addBriefTrans raw t4 (cs "descriptionNeutralsTask")
    mp.briefings.descriptionNeutralsTask

/-- The global entry-pattern replace: at each position try the entry
match; on a match emit the prefix group with the escaped translation in
fresh double quotes when the key's translation is truthy, the matched span
unchanged otherwise, and continue after the span. -/
def genAux (protoText : List Char → List Char)
    (tr : List (List Char × List Char)) : Nat → List Char → List Char
  | _, [] => []
  | 0, s => s
  | Nat.succ f, c :: rest =>
      match entryMatchAt (c :: rest) with
      | some (g1, key, value) =>
          (if transTruthy tr key then
            g1 ++ '"' :: escapeLua (transValue protoText tr key) ++ ['"']
          else (c :: rest).take (g1.length + value.length + 2))
            ++ genAux protoText tr f ((c :: rest).drop (g1.length + value.length + 2))
      | none => c :: genAux protoText tr f rest

/-- MizParser.generateDictionaryPreservingFormat: copy the raw DEFAULT
dictionary text, replacing only the quoted value of each matched entry
whose key has a truthy translation.  `protoText` supplies the
engine-dependent stringification of an inherited method (consulted only
for a matched key that is absent from the translations yet named like an
`Object.prototype` member); the target locale is unused, as in the
source. -/
def generateDictionaryPreservingFormat (protoText : List Char → List Char)
    (defaultDictRaw : List Char) (mappings : ImportMappings)
    (targetLocale : List Char) : List Char :=
  let translations := buildTranslations defaultDictRaw mappings
  genAux protoText translations defaultDictRaw.length defaultDictRaw

/-- The keys of the entries the global entry scan matches, in scan
order. -/
def entryKeys : Nat → List Char → List (List Char)
  | _, [] => []
  | 0, _ => []
  | Nat.succ f, c :: rest =>
      match entryMatchAt (c :: rest) with
      | some (g1, key, value) =>
          key :: entryKeys f ((c :: rest).drop (g1.length + value.length + 2))
      | none => entryKeys f rest

end MizParser

/-- When no matched key has a truthy translation, the global replace
reconstructs its input byte for byte. -/
theorem genAux_id (protoText : List Char → List Char)
    (tr : List (List Char × List Char)) :
    ∀ (fuel : Nat) (s : List Char),
      (∀ k ∈ MizParser.entryKeys fuel s, MizParser.transTruthy tr k = false) →
      MizParser.genAux protoText tr fuel s = s := by
  intro fuel
  induction fuel with
  | zero =>
      intro s h
      cases s with
      | nil => rfl
      | cons c rest => rfl
  | succ f ih =>
      intro s h
      cases s with
      | nil => rfl
      | cons c rest =>
          simp only [MizParser.genAux, MizParser.entryKeys] at h ⊢
          cases hm : MizParser.entryMatchAt (c :: rest) with
          | none =>
              rw [hm] at h
              rw [ih rest h]
          | some p =>
              obtain ⟨g1, key, value⟩ := p
              rw [hm] at h
              have h2 : ∀ k ∈ key :: MizParser.entryKeys f
                  ((c :: rest).drop (g1.length + value.length + 2)),
                  MizParser.transTruthy tr k = false := h
              have hrest := ih _ (fun k hk => h2 k (List.mem_cons_of_mem _ hk))
              show (if MizParser.transTruthy tr key = true then
                    g1 ++ '"' :: MizParser.escapeLua
                      (MizParser.transValue protoText tr key) ++ ['"']
                  else (c :: rest).take (g1.length + value.length + 2))
                  ++ MizParser.genAux protoText tr f
                    ((c :: rest).drop (g1.length + value.length + 2)) = c :: rest
              rw [h2 key (List.mem_cons_self _ _)]
              simp only [Bool.false_eq_true, if_false]
              rw [hrest, List.take_append_drop]

/-- The mappings of the apostrophe counterexample: the imported file
translates `DictKey_greeting` to `Hi`. -/
def mpC1 : MizParser.ImportMappings :=
  { keyMappings := [(cs "DictKey_greeting", cs "Hi")] }

/-- A DEFAULT dictionary whose single entry's value holds a bare
apostrophe. -/
def rawC1bad : List Char :=
  cs "[\"DictKey_greeting\"] = \"it" ++ [squote] ++ cs "s fine\""

/-- A two-entry DEFAULT dictionary with surrounding text: one translated
key, one untranslated, a comment and spacing. -/
def rawC1good : List Char :=
  cs "dictionary =\n\x7b\n    [\"DictKey_greeting\"] = \"hello there\", -- c1\n    [\"DictKey_other\"] = \"keep me\",\n\x7d"

/-- Claim C1, refuted: on an entry whose value holds a bare apostrophe,
the value group stops at the apostrophe and the closing quote class
accepts it, so replacing `DictKey_greeting` by `Hi` leaves the tail of the
old value behind — the output is not the source with the quoted value
replaced, which would end at the translated value's closing quote.  (The
scan never reaches an inherited-method key here, so the engine-dependent
`protoText` argument is fixed to a constant.) -/
theorem claim_C1_counterexample :
    MizParser.generateDictionaryPreservingFormat (fun _ => []) rawC1bad mpC1
        (cs "RU") =
      cs "[\"DictKey_greeting\"] = \"Hi\"s fine\"" ∧
    ¬(cs "[\"DictKey_greeting\"] = \"Hi\"s fine\"" =
      cs "[\"DictKey_greeting\"] = \"Hi\"") :=
  ⟨rfl, by decide⟩

/-- Claim C1, amended.  (1) Frame part, in general: when no key the entry
scan matches has a truthy translation, the output is byte-identical to the
raw source.  (2) Substitution part, on a concrete dictionary: the
translated entry's quoted value is replaced by the escaped translation
while the untranslated entry, spacing and comments stay byte-identical.
(On values holding a bare apostrophe the replacement corrupts the entry
instead — see the counterexample.) -/
theorem claim_C1_amended :
    (∀ (protoText : List Char → List Char) (raw : List Char)
        (mp : MizParser.ImportMappings) (loc : List Char),
      (∀ k ∈ MizParser.entryKeys raw.length raw,
        MizParser.transTruthy (MizParser.buildTranslations raw mp) k = false) →
      MizParser.generateDictionaryPreservingFormat protoText raw mp loc = raw) ∧
    (∀ protoText : List Char → List Char,
      MizParser.generateDictionaryPreservingFormat protoText rawC1good mpC1
          (cs "RU") =
        cs "dictionary =\n\x7b\n    [\"DictKey_greeting\"] = \"Hi\", -- c1\n    [\"DictKey_other\"] = \"keep me\",\n\x7d") :=
  ⟨fun protoText raw mp loc h => genAux_id protoText _ raw.length raw h,
   fun protoText => rfl⟩

/-- Witness for claim C1 at the concrete dictionary with no translations:
the scan matches two keys, neither translated, and the output is the
input. -/
theorem claim_C1_witness :
    MizParser.generateDictionaryPreservingFormat (fun _ => []) rawC1good {}
        (cs "RU") = rawC1good :=
  claim_C1_amended.1 (fun _ => []) rawC1good {} (cs "RU") (by decide)

/-- An entry of the loaded zip archive: path, text content and the
directory flag. -/
structure ZEntry where
  path : List Char
  content : List Char
  dir : Bool
deriving DecidableEq, Repr

/-- The loaded zip archive, entries in `Object.keys(zip.files)` order. -/
abbrev Archive := List ZEntry

/-- `zip.file(path)`: the entry at the path, or null for a directory or a
missing path. -/
def zfile (ar : Archive) (p : List Char) : Option ZEntry :=
  match ar.find? (fun e => e.path = p) with
  | some e => if e.dir then none else some e
  | none => none

/-- `zip.file(path, content)`: overwrite the entry in place or append a
fresh file entry. -/
def zset (ar : Archive) (p c : List Char) : Archive :=
  if ar.any (fun e => e.path = p) then
    ar.map (fun e => if e.path = p then ⟨p, c, false⟩ else e)
  else ar ++ [⟨p, c, false⟩]

/-- The `l10n/<locale>/<suffix>` path patterns of MizParser.parse: the
locale group is the non-empty run up to the next slash, and the fixed
suffix must follow it to the end. -/
def l10nLocale (suffix : List Char) (p : List Char) : Option (List Char) :=
  if (cs "l10n/").isPrefixOf p then
    let rest := p.drop 5
    let loc := rest.takeWhile (fun c => c ≠ '/')
    if loc.isEmpty then none
    else if rest.drop loc.length = '/' :: suffix then some loc else none
  else none

namespace MizParser

/-- The plain `dictionary` pattern's contribution to the parse result: a
match always pushes its locale, then parses the file when present. -/
def dictStep (ar : Archive) (pd : ParsedData) (fileName : List Char) :
    ParsedData :=
  match l10nLocale (cs "dictionary") fileName with
  | some locale =>
      let pda := { pd with availableLocales := pd.availableLocales ++ [locale] }
      match zfile ar fileName with
      | some df =>
          { pda with dictionaries := (aset pda.dictionaries locale
              (LuaParser.parse (some df.content))) }
      | none => pda
  | none => pd

/-- The `dictionary.lua` pattern's contribution: the locale is pushed only
when new. -/
def dictLuaStep (ar : Archive) (pd : ParsedData) (fileName : List Char) :
    ParsedData :=
  match l10nLocale (cs "dictionary.lua") fileName with
  | some locale =>
      let pda := if pd.availableLocales.any (fun l => l = locale) then pd
        else { pd with availableLocales := pd.availableLocales ++ [locale] }
      match zfile ar fileName with
      | some df =>
          { pda with dictionaries := (aset pda.dictionaries locale
              (LuaParser.parse (some df.content))) }
      | none => pda
  | none => pd

/-- A `mapResource` pattern's contribution (plain or `.lua`). -/
def mapResStep (suffix : List Char) (ar : Archive) (pd : ParsedData)
    (fileName : List Char) : ParsedData :=
  match l10nLocale suffix fileName with
  | some locale =>
      match zfile ar fileName with
      | some mr =>
          { pd with mapResources := (aset pd.mapResources locale
              (LuaParser.parse (some mr.content))) }
      | none => pd
  | none => pd

/-- One file name's contribution to the parse result: the four `l10n`
patterns, in source order. -/
def parseStep (ar : Archive) (pd : ParsedData) (fileName : List Char) :
    ParsedData :=
  mapResStep (cs "mapResource.lua") ar
    (mapResStep (cs "mapResource") ar
      (dictLuaStep ar (dictStep ar pd fileName) fileName) fileName) fileName

/-- MizParser.parse at the archive level: fail without a mission file,
else parse the mission and fold the `l10n` patterns over the file names in
archive order. -/
def parse (ar : Archive) : Except (List Char) ParsedData :=
  match zfile ar (cs "mission") with
  | none => Except.error (cs "Invalid .miz file: No mission file found")
  | some mf =>
      Except.ok ((ar.map (fun e => e.path)).foldl (parseStep ar)
        ⟨LuaParser.parse (some mf.content), [], [], []⟩)

/-- The copy target of the import loop:
`defaultPath.replace(str1, str2)` for a path that starts with
`l10n/DEFAULT/` (13 characters), whose first occurrence is therefore at
the start. -/
def copyPath (targetLocale p : List Char) : List Char :=
  cs "l10n/" ++ targetLocale ++ '/' :: p.drop 13

/-- One iteration of the import copy loop: skip missing entries,
directories and paths ending in `dictionary`; copy everything else to the
target locale's path. -/
def copyStep (targetLocale : List Char) (z : Archive) (p : List Char) :
    Archive :=
  match zfile z p with
  | none => z
  | some f =>
      if f.dir || (cs "dictionary").isSuffixOf p then z
      else zset z (copyPath targetLocale p) f.content

/-- The number of assigned own keys of the briefings object. -/
def briefingsCount (b : ImpBriefings) : Nat :=
  [b.sortie, b.descriptionText, b.descriptionBlueTask, b.descriptionRedTask,
   b.descriptionNeutralsTask].foldl
    (fun n o => match o with | some _ => n + 1 | none => n) 0

/-- The per-property pattern of updateMissionBriefings, anchored at the
current position: the literal double-quoted bracketed property, the
equals sign with spacing, then a quoted value (either quote kind).
Returns the prefix group and the value; the span is
`g1.length + value.length + 2` characters. -/
def umbMatchAt (prop : List Char) (s : List Char) :
    Option (List Char × List Char) :=
  match s with
  | '[' :: '"' :: r2 =>
      if prop.isPrefixOf r2 then
        match r2.drop prop.length with
        | '"' :: ']' :: r4 =>
            let ws1 := r4.takeWhile isWsChar
            match r4.drop ws1.length with
            | '=' :: r5 =>
                let ws2 := r5.takeWhile isWsChar
                match r5.drop ws2.length with
                | q3 :: r6 =>
                    if isQuoteChar q3 then
                      match valueScan r6 with
                      | (value, q4 :: _) =>
                          if isQuoteChar q4 then
                            some ('[' :: '"' :: prop ++ '"' :: ']' :: ws1
                              ++ '=' :: ws2, value)
                          else none
                      | (_, []) => none
                    else none
                | _ => none
            | _ => none
        | _ => none
      else none
  | _ => none

/-- The global replace of one briefing property: every matched span's
quoted value becomes the escaped replacement in double quotes. -/
def umbAux (repl : List Char) (prop : List Char) : Nat → List Char → List Char
  | _, [] => []
  | 0, s => s
  | Nat.succ f, c :: rest =>
      match umbMatchAt prop (c :: rest) with
      | some (g1, value) =>
          g1 ++ '"' :: repl ++ ['"']
            ++ umbAux repl prop f ((c :: rest).drop (g1.length + value.length + 2))
      | none => c :: umbAux repl prop f rest

/-- MizParser.updateMissionBriefings: for each assigned, non-empty
briefing value, replace the mission file's matching property assignments.
(The five briefing slots target pairwise-distinct properties whose
replacements cannot create a match for another, so the JS object's
insertion order is immaterial; they are folded in property-slot
order.) -/
def updateMissionBriefings (missionContent : List Char) (b : ImpBriefings) :
    List Char :=
  [(cs "sortie", b.sortie), (cs "descriptionText", b.descriptionText),
   (cs "descriptionBlueTask", b.descriptionBlueTask),
   (cs "descriptionRedTask", b.descriptionRedTask),
   (cs "descriptionNeutralsTask", b.descriptionNeutralsTask)].foldl
    (fun r pv =>
      match pv.2 with
      | some v => if v.isEmpty then r else umbAux (escapeLua v) pv.1 r.length r
      | none => r)
    missionContent

/-- MizParser.importToMiz on a loaded archive: copy the DEFAULT locale's
files (except dictionaries) to the target locale, parse the imported text,
fail when the archive has no `l10n/DEFAULT/dictionary`, else update the
mission briefings and write the generated target dictionary. -/
def importToMiz (protoText : List Char → List Char) (ar : Archive)
    (importedText targetLocale : List Char) : Except (List Char) Archive :=
  let defaultFiles := (ar.map (fun e => e.path)).filter
    (fun f => (cs "l10n/DEFAULT/").isPrefixOf f)
  let zip1 := defaultFiles.foldl (copyStep targetLocale) ar
  let mappings := parseImportedText importedText
  match zfile zip1 (cs "l10n/DEFAULT/dictionary") with
  | none => Except.error (cs "No DEFAULT dictionary found in .miz file")
  | some ddf =>
      let zip2 := match zfile zip1 (cs "mission") with
        | some mf =>
            if 0 < briefingsCount mappings.briefings then
              zset zip1 (cs "mission")
                (updateMissionBriefings mf.content mappings.briefings)
            else zip1
        | none => zip1
      Except.ok (zset zip2 (cs "l10n/" ++ targetLocale ++ cs "/dictionary")
        (generateDictionaryPreservingFormat protoText ddf.content mappings
          targetLocale))

end MizParser

theorem find?_path_map_update (ar : Archive) (q c p : List Char)
    (hne : q ≠ p) :
    (ar.map (fun e => if e.path = q then (⟨q, c, false⟩ : ZEntry) else e)).find?
        (fun e => e.path = p) = ar.find? (fun e => e.path = p) := by
  induction ar with
  | nil => rfl
  | cons e t ih =>
      rw [List.map_cons]
      by_cases heq : e.path = q
      · rw [if_pos heq]
        have h1 : ¬((⟨q, c, false⟩ : ZEntry).path = p) := hne
        have h2 : ¬(e.path = p) := by rw [heq]; exact hne
        rw [List.find?_cons_of_neg _ (by simpa using h1),
          List.find?_cons_of_neg _ (by simpa using h2), ih]
      · rw [if_neg heq]
        by_cases hp : e.path = p
        · rw [List.find?_cons_of_pos _ (by simpa using hp),
            List.find?_cons_of_pos _ (by simpa using hp)]
        · rw [List.find?_cons_of_neg _ (by simpa using hp),
            List.find?_cons_of_neg _ (by simpa using hp), ih]

theorem find?_path_append_single (ar : Archive) (x : ZEntry) (p : List Char)
    (hne : ¬(x.path = p)) :
    (ar ++ [x]).find? (fun e => e.path = p) = ar.find? (fun e => e.path = p) := by
  induction ar with
  | nil =>
      rw [List.nil_append, List.find?_cons_of_neg _ (by simpa using hne),
        List.find?_nil]
  | cons e t ih =>
      rw [List.cons_append]
      by_cases hp : e.path = p
      · rw [List.find?_cons_of_pos _ (by simpa using hp),
          List.find?_cons_of_pos _ (by simpa using hp)]
      · rw [List.find?_cons_of_neg _ (by simpa using hp),
          List.find?_cons_of_neg _ (by simpa using hp), ih]

/-- A write at one path leaves the read of any other path unchanged. -/
theorem zfile_zset_ne (ar : Archive) (q c p : List Char) (hne : q ≠ p) :
    zfile (zset ar q c) p = zfile ar p := by
  unfold zfile zset
  by_cases hany : ar.any (fun e => e.path = q)
  · rw [if_pos hany, find?_path_map_update ar q c p hne]
  · rw [if_neg hany, find?_path_append_single ar _ p hne]

/-- Splitting a slash-delimited concatenation of slash-free segments is
unambiguous. -/
theorem slashfree_split :
    ∀ (a b x y : List Char), a.all (fun c => c ≠ '/') = true →
      b.all (fun c => c ≠ '/') = true →
      a ++ '/' :: x = b ++ '/' :: y → a = b ∧ x = y := by
  intro a
  induction a with
  | nil =>
      intro b x y _ hb h
      cases b with
      | nil =>
          rw [List.nil_append, List.nil_append] at h
          injection h with h1 h2
          exact ⟨rfl, h2⟩
      | cons d b2 =>
          rw [List.nil_append, List.cons_append] at h
          injection h with h1 h2
          rw [List.all_cons, Bool.and_eq_true] at hb
          have hd : d ≠ '/' := by simpa using hb.1
          exact absurd h1.symm hd
  | cons e a2 ih =>
      intro b x y ha hb h
      rw [List.all_cons, Bool.and_eq_true] at ha
      cases b with
      | nil =>
          rw [List.nil_append, List.cons_append] at h
          injection h with h1 h2
          have he : e ≠ '/' := by simpa using ha.1
          exact absurd h1 he
      | cons d b2 =>
          rw [List.cons_append, List.cons_append] at h
          injection h with h1 h2
          rw [List.all_cons, Bool.and_eq_true] at hb
          rcases ih b2 x y ha.2 hb.2 h2 with ⟨hab, hxy⟩
          exact ⟨by rw [h1, hab], hxy⟩

theorem prefix_decomp {pre p : List Char}
    (h : pre.isPrefixOf p = true) : p = pre ++ p.drop pre.length := by
  rcases List.isPrefixOf_iff_prefix.mp h with ⟨t, ht⟩
  rw [← ht, List.drop_left]

theorem eq_append_drop_of_prefix {a l : List Char} (h : a <+: l) :
    l = a ++ l.drop a.length := by
  rcases h with ⟨t, ht⟩
  rw [← ht, List.drop_left]

/-- A copied file's target path is never the DEFAULT dictionary path: that
would force the target locale to be `DEFAULT` and the source path to be
the dictionary itself, which the copy loop skips. -/
theorem copyPath_ne_defaultDict (target p : List Char)
    (htarget : target.all (fun c => c ≠ '/') = true)
    (hpre : (cs "l10n/DEFAULT/").isPrefixOf p = true)
    (hsuf : ¬((cs "dictionary").isSuffixOf p = true)) :
    MizParser.copyPath target p ≠ cs "l10n/DEFAULT/dictionary" := by
  intro h
  unfold MizParser.copyPath at h
  rw [show cs "l10n/DEFAULT/dictionary" =
    cs "l10n/" ++ (cs "DEFAULT" ++ '/' :: cs "dictionary") from rfl] at h
  have h3 : cs "l10n/" ++ (target ++ '/' :: p.drop 13) =
      cs "l10n/" ++ (cs "DEFAULT" ++ '/' :: cs "dictionary") := by
    rw [← List.append_assoc]
    exact h
  have h2 : target ++ '/' :: p.drop 13 =
      cs "DEFAULT" ++ '/' :: cs "dictionary" := List.append_cancel_left h3
  rcases slashfree_split target (cs "DEFAULT") _ _ htarget (by decide) h2 with
    ⟨ht, hd⟩
  apply hsuf
  have hdec := prefix_decomp hpre
  rw [show (cs "l10n/DEFAULT/").length = 13 from rfl, hd] at hdec
  rw [hdec]
  decide

theorem copyFold_preserves (target : List Char)
    (htarget : target.all (fun c => c ≠ '/') = true) :
    ∀ (ps : List (List Char)) (z : Archive),
      (∀ p ∈ ps, (cs "l10n/DEFAULT/").isPrefixOf p = true) →
      zfile z (cs "l10n/DEFAULT/dictionary") = none →
      zfile (ps.foldl (MizParser.copyStep target) z)
        (cs "l10n/DEFAULT/dictionary") = none := by
  intro ps
  induction ps with
  | nil =>
      intro z _ hz
      exact hz
  | cons p rest ih =>
      intro z hmem hz
      rw [List.foldl_cons]
      apply ih _ (fun q hq => hmem q (List.mem_cons_of_mem _ hq))
      unfold MizParser.copyStep
      cases hf : zfile z p with
      | none => exact hz
      | some f =>
          show zfile (if (f.dir || (cs "dictionary").isSuffixOf p) = true then z
            else zset z (MizParser.copyPath target p) f.content)
            (cs "l10n/DEFAULT/dictionary") = none
          by_cases hc : (f.dir || (cs "dictionary").isSuffixOf p) = true
          · rw [if_pos hc]
            exact hz
          · rw [if_neg hc]
            rw [zfile_zset_ne]
            · exact hz
            · exact copyPath_ne_defaultDict target p htarget
                (hmem p (List.mem_cons_self _ _))
                (fun hs => hc (by rw [hs, Bool.or_true]))

theorem find?_fst_map_update {β : Type} (m : List (List Char × β))
    (k kq : List Char) (v : β) (hne : k ≠ kq) :
    (m.map (fun e => if e.1 = k then (k, v) else e)).find?
        (fun e => e.1 = kq) = m.find? (fun e => e.1 = kq) := by
  induction m with
  | nil => rfl
  | cons e t ih =>
      rw [List.map_cons]
      by_cases heq : e.1 = k
      · rw [if_pos heq]
        have h1 : ¬(((k, v) : List Char × β).1 = kq) := hne
        have h2 : ¬(e.1 = kq) := by rw [heq]; exact hne
        rw [List.find?_cons_of_neg _ (by simpa using h1),
          List.find?_cons_of_neg _ (by simpa using h2), ih]
      · rw [if_neg heq]
        by_cases hp : e.1 = kq
        · rw [List.find?_cons_of_pos _ (by simpa using hp),
            List.find?_cons_of_pos _ (by simpa using hp)]
        · rw [List.find?_cons_of_neg _ (by simpa using hp),
            List.find?_cons_of_neg _ (by simpa using hp), ih]

theorem find?_fst_append_single {β : Type} (m : List (List Char × β))
    (x : List Char × β) (kq : List Char) (hne : ¬(x.1 = kq)) :
    (m ++ [x]).find? (fun e => e.1 = kq) = m.find? (fun e => e.1 = kq) := by
  induction m with
  | nil =>
      rw [List.nil_append, List.find?_cons_of_neg _ (by simpa using hne),
        List.find?_nil]
  | cons e t ih =>
      rw [List.cons_append]
      by_cases hp : e.1 = kq
      · rw [List.find?_cons_of_pos _ (by simpa using hp),
          List.find?_cons_of_pos _ (by simpa using hp)]
      · rw [List.find?_cons_of_neg _ (by simpa using hp),
          List.find?_cons_of_neg _ (by simpa using hp), ih]

/-- Writing one locale's dictionary leaves other locales' reads
unchanged. -/
theorem aget_aset_ne (m : List (List Char × LVal)) (k kq : List Char)
    (v : LVal) (hne : k ≠ kq) :
    MizParser.aget (MizParser.aset m k v) kq = MizParser.aget m kq := by
  unfold MizParser.aget MizParser.aset
  by_cases hany : m.any (fun e => e.1 = k)
  · rw [if_pos hany, find?_fst_map_update m k kq v hne]
  · rw [if_neg hany, find?_fst_append_single m _ kq hne]

/-- A path the `l10n` pattern accepts is exactly the locale wrapped in the
fixed pieces. -/
theorem l10nLocale_inv {suffix p loc : List Char}
    (h : l10nLocale suffix p = some loc) :
    p = cs "l10n/" ++ (loc ++ '/' :: suffix) := by
  simp only [l10nLocale] at h
  by_cases hpre : (cs "l10n/").isPrefixOf p = true
  · rw [if_pos hpre] at h
    by_cases hemp : ((p.drop 5).takeWhile (fun c => c ≠ '/')).isEmpty = true
    · rw [if_pos hemp] at h
      cases h
    · rw [if_neg hemp] at h
      by_cases heq : (p.drop 5).drop
          ((p.drop 5).takeWhile (fun c => c ≠ '/')).length = '/' :: suffix
      · rw [if_pos heq] at h
        injection h with hl
        subst hl
        have hdec := prefix_decomp hpre
        rw [show (cs "l10n/").length = 5 from rfl] at hdec
        have hsplit : p.drop 5 =
            (p.drop 5).takeWhile (fun c => c ≠ '/') ++ '/' :: suffix := by
          have hp := eq_append_drop_of_prefix
            (List.takeWhile_prefix (l := p.drop 5) (p := fun c => c ≠ '/'))
          rw [heq] at hp
          exact hp
        exact hdec.trans (congrArg (fun t => cs "l10n/" ++ t) hsplit)
      · rw [if_neg heq] at h
        cases h
  · rw [if_neg hpre] at h
    cases h

theorem mapResStep_dicts (suffix : List Char) (ar : Archive)
    (pd : MizParser.ParsedData) (f : List Char) :
    (MizParser.mapResStep suffix ar pd f).dictionaries = pd.dictionaries := by
  unfold MizParser.mapResStep
  cases hm : l10nLocale suffix f with
  | none => rfl
  | some loc =>
      cases hz : zfile ar f with
      | none => rfl
      | some mr => rfl

theorem dictStep_pres (ar : Archive) (f : List Char)
    (h1 : zfile ar (cs "l10n/DEFAULT/dictionary") = none)
    (pd : MizParser.ParsedData)
    (hpd : MizParser.aget pd.dictionaries (cs "DEFAULT") = none) :
    MizParser.aget (MizParser.dictStep ar pd f).dictionaries
      (cs "DEFAULT") = none := by
  unfold MizParser.dictStep
  cases hm : l10nLocale (cs "dictionary") f with
  | none => exact hpd
  | some loc =>
      cases hz : zfile ar f with
      | none => exact hpd
      | some df =>
          show MizParser.aget (MizParser.aset pd.dictionaries loc
            (LuaParser.parse (some df.content))) (cs "DEFAULT") = none
          by_cases hd : loc = cs "DEFAULT"
          · exfalso
            subst hd
            have hinv := l10nLocale_inv hm
            rw [show cs "l10n/" ++ (cs "DEFAULT" ++ '/' :: cs "dictionary") =
              cs "l10n/DEFAULT/dictionary" from rfl] at hinv
            rw [hinv, h1] at hz
            cases hz
          · rw [aget_aset_ne _ _ _ _ hd]
            exact hpd

theorem dictLuaStep_pres (ar : Archive) (f : List Char)
    (h2 : zfile ar (cs "l10n/DEFAULT/dictionary.lua") = none)
    (pd : MizParser.ParsedData)
    (hpd : MizParser.aget pd.dictionaries (cs "DEFAULT") = none) :
    MizParser.aget (MizParser.dictLuaStep ar pd f).dictionaries
      (cs "DEFAULT") = none := by
  unfold MizParser.dictLuaStep
  cases hm : l10nLocale (cs "dictionary.lua") f with
  | none => exact hpd
  | some loc =>
      cases hz : zfile ar f with
      | none =>
          show MizParser.aget (if pd.availableLocales.any (fun l => l = loc)
              then pd else { pd with availableLocales :=
                pd.availableLocales ++ [loc] }).dictionaries (cs "DEFAULT") = none
          by_cases ha : pd.availableLocales.any (fun l => l = loc) = true
          · rw [if_pos ha]
            exact hpd
          · rw [if_neg ha]
            exact hpd
      | some df =>
          show MizParser.aget (MizParser.aset (if pd.availableLocales.any
              (fun l => l = loc) then pd else { pd with availableLocales :=
                pd.availableLocales ++ [loc] }).dictionaries loc
            (LuaParser.parse (some df.content))) (cs "DEFAULT") = none
          have hdicts : (if pd.availableLocales.any (fun l => l = loc) then pd
              else { pd with availableLocales :=
                pd.availableLocales ++ [loc] }).dictionaries = pd.dictionaries := by
            by_cases ha : pd.availableLocales.any (fun l => l = loc) = true
            · rw [if_pos ha]
            · rw [if_neg ha]
          rw [hdicts]
          by_cases hd : loc = cs "DEFAULT"
          · exfalso
            subst hd
            have hinv := l10nLocale_inv hm
            rw [show cs "l10n/" ++ (cs "DEFAULT" ++ '/' :: cs "dictionary.lua") =
              cs "l10n/DEFAULT/dictionary.lua" from rfl] at hinv
            rw [hinv, h2] at hz
            cases hz
          · rw [aget_aset_ne _ _ _ _ hd]
            exact hpd

theorem parseStep_pres (ar : Archive) (f : List Char)
    (h1 : zfile ar (cs "l10n/DEFAULT/dictionary") = none)
    (h2 : zfile ar (cs "l10n/DEFAULT/dictionary.lua") = none)
    (pd : MizParser.ParsedData)
    (hpd : MizParser.aget pd.dictionaries (cs "DEFAULT") = none) :
    MizParser.aget (MizParser.parseStep ar pd f).dictionaries
      (cs "DEFAULT") = none := by
  unfold MizParser.parseStep
  rw [mapResStep_dicts, mapResStep_dicts]
  exact dictLuaStep_pres ar f h2 _ (dictStep_pres ar f h1 pd hpd)

theorem parseFold_pres (ar : Archive)
    (h1 : zfile ar (cs "l10n/DEFAULT/dictionary") = none)
    (h2 : zfile ar (cs "l10n/DEFAULT/dictionary.lua") = none) :
    ∀ (ps : List (List Char)) (pd : MizParser.ParsedData),
      MizParser.aget pd.dictionaries (cs "DEFAULT") = none →
      MizParser.aget ((ps.foldl (MizParser.parseStep ar) pd)).dictionaries
        (cs "DEFAULT") = none := by
  intro ps
  induction ps with
  | nil =>
      intro pd hpd
      exact hpd
  | cons f rest ih =>
      intro pd hpd
      rw [List.foldl_cons]
      exact ih _ (parseStep_pres ar f h1 h2 pd hpd)

theorem localeDictOf_of_aget_none {pd : MizParser.ParsedData}
    {loc : List Char} (h : MizParser.aget pd.dictionaries loc = none) :
    localeDictOf pd loc = [] := by
  unfold localeDictOf
  rw [h]
  rfl

theorem extractText_locale_eq (pd : MizParser.ParsedData)
    (opts : MizParser.ExtractOptions) :
    (MizParser.extractText pd opts).locale =
      (MizParser.selectDictionary pd opts.preferredLocale).2 := rfl

/-- Claim C8: for a loaded archive with no `l10n/DEFAULT/dictionary` and
no `l10n/DEFAULT/dictionary.lua` (and a slash-free target locale),
importToMiz fails with the missing-DEFAULT-dictionary error and returns no
archive; parsing the same archive can fail only for a missing mission
file, and when it succeeds, extraction with default options reports the
first available locale — the dictionary-selection fallback. -/
theorem claim_C8 :
    ∀ (protoText : List Char → List Char) (ar : Archive)
        (txt target : List Char),
      target.all (fun c => c ≠ '/') = true →
      zfile ar (cs "l10n/DEFAULT/dictionary") = none →
      zfile ar (cs "l10n/DEFAULT/dictionary.lua") = none →
      MizParser.importToMiz protoText ar txt target =
        Except.error (cs "No DEFAULT dictionary found in .miz file") ∧
      (∀ msg, MizParser.parse ar = Except.error msg →
        msg = cs "Invalid .miz file: No mission file found") ∧
      (∀ pd first rest, MizParser.parse ar = Except.ok pd →
        pd.availableLocales = first :: rest →
        (MizParser.extractText pd {}).locale = first) := by
  intro protoText ar txt target htg h1 h2
  refine ⟨?_, ?_, ?_⟩
  · simp only [MizParser.importToMiz]
    have hz1 : zfile (((ar.map (fun e => e.path)).filter
        (fun f => (cs "l10n/DEFAULT/").isPrefixOf f)).foldl
        (MizParser.copyStep target) ar) (cs "l10n/DEFAULT/dictionary") = none := by
      apply copyFold_preserves target htg
      · intro p hp
        exact (List.mem_filter.mp hp).2
      · exact h1
    rw [hz1]
  · intro msg hmsg
    unfold MizParser.parse at hmsg
    cases hz : zfile ar (cs "mission") with
    | none =>
        rw [hz] at hmsg
        injection hmsg with he
        exact he.symm
    | some mf =>
        rw [hz] at hmsg
        cases hmsg
  · intro pd first rest hok hloc
    unfold MizParser.parse at hok
    cases hz : zfile ar (cs "mission") with
    | none =>
        rw [hz] at hok
        cases hok
    | some mf =>
        rw [hz] at hok
        injection hok with hpd
        have hnone : MizParser.aget pd.dictionaries (cs "DEFAULT") = none := by
          rw [← hpd]
          exact parseFold_pres ar h1 h2 _ _ rfl
        rw [extractText_locale_eq]
        have hfall := selectDictionary_fallback pd (cs "DEFAULT") first rest
          (localeDictOf_of_aget_none hnone) (localeDictOf_of_aget_none hnone)
          hloc
        rw [show (({} : MizParser.ExtractOptions)).preferredLocale =
          cs "DEFAULT" from rfl, hfall]

/-- An archive with a mission and only an RU dictionary. -/
def arC8 : Archive :=
  [⟨cs "mission", cs "mission = \x7b\x7d", false⟩,
   ⟨cs "l10n/RU/dictionary",
    cs "dictionary = \x7b[\"DictKey_ActionText_1\"] = \"Privet\"\x7d", false⟩]

/-- Witness for claim C8: on the concrete DEFAULT-less archive, the import
fails with the missing-dictionary error. -/
theorem claim_C8_witness :
    MizParser.importToMiz (fun _ => []) arC8 [] (cs "RU") =
      Except.error (cs "No DEFAULT dictionary found in .miz file") :=
  (claim_C8 (fun _ => []) arC8 [] (cs "RU") (by decide) rfl rfl).1
